import Mathlib

/-!
Verification development for the KBBI dictionary-lookup subsystem of the
Flask backend (`backend/flask-app/api/kbbi.py` and
`backend/flask-app/kbbi_simple.py`).

The Python code is shallowly embedded: strings are `List Char`/`String`,
JSON values are an inductive `Json` type, Python dicts are association
lists in insertion order, raised exceptions are `Option`/`none`, and
wall-clock timestamps are `Int` (the code never depends on fractional
seconds).  Character classes (`\w`, `\s`, `str.lower`) are modelled with
Lean's ASCII character primitives; the claims under study are insensitive
to the exact alphabet as long as classification is stable under
lower-casing, which holds for the model exactly as for Python's Unicode
tables.
-/

/-- Characters matched by `\s` / `str.isspace` / `str.strip`. -/
def isSpaceChar (c : Char) : Bool := c.isWhitespace

/-- Characters matched by `\w` (letters, digits, underscore). -/
def isWordChar (c : Char) : Bool := c.isAlphanum || c = '_'

/-- Python `str.strip`: drop whitespace from both ends. -/
def pyStrip (l : List Char) : List Char :=
  ((l.dropWhile isSpaceChar).reverse.dropWhile isSpaceChar).reverse

/-- Worker for `re.sub(r"\s+", " ", s)`: replace each maximal whitespace
run by a single `' '`.  The flag records whether we are inside a run. -/
def collapseAux : Bool → List Char → List Char
  | _, [] => []
  | true, c :: rest =>
    if isSpaceChar c then collapseAux true rest else c :: collapseAux false rest
  | false, c :: rest =>
    if isSpaceChar c then ' ' :: collapseAux true rest else c :: collapseAux false rest

/-- `re.sub(r"\s+", " ", s)`. -/
def collapseSpaces (l : List Char) : List Char := collapseAux false l

/-- `_kbbi_normalize` on character lists: strip, lowercase, delete
non-word/non-space characters, turn underscores into spaces, collapse
whitespace runs, strip again. -/
def kbbiNormalizeL (s : List Char) : List Char :=
  pyStrip (collapseSpaces
    (((((pyStrip s).map Char.toLower).filter
        (fun c => isWordChar c || isSpaceChar c)).map
      (fun c => if c = '_' then ' ' else c))))

/-- `_kbbi_normalize` on strings. -/
def kbbiNormalize (s : String) : String := ⟨kbbiNormalizeL s.data⟩

/-- Python `str.strip` on `String`. -/
def pyStripStr (s : String) : String := ⟨pyStrip s.data⟩

/-- Python `str.lower` on `String` (ASCII model). -/
def pyLowerStr (s : String) : String := ⟨s.data.map Char.toLower⟩

/-- Python `s[:n]` (first `n` characters). -/
def pyTake (s : String) (n : Nat) : String := ⟨s.data.take n⟩

/-- Python `s.startswith(pre)`. -/
def pyStartsWith (s pre : String) : Bool := pre.data.isPrefixOf s.data

-- ### Character-class facts

theorem char_toNat_ofNat_valid {m : Nat} (h : m < 0xd800) : (Char.ofNat m).toNat = m := by
  have hv : m.isValidChar := Or.inl h
  simp [Char.ofNat, hv, Char.ofNatAux, Char.toNat, UInt32.ofNat', UInt32.toNat,
    BitVec.toNat_ofNatLt]

theorem toLower_eq_self {c : Char} (h : ¬(65 ≤ c.toNat ∧ c.toNat ≤ 90)) :
    Char.toLower c = c := by
  simp only [Char.toLower]
  rw [if_neg]
  intro hc
  exact h ⟨hc.1, hc.2⟩

theorem toLower_not_upper (c : Char) :
    ¬(65 ≤ (Char.toLower c).toNat ∧ (Char.toLower c).toNat ≤ 90) := by
  simp only [Char.toLower]
  by_cases h : c.toNat ≥ 65 ∧ c.toNat ≤ 90
  · rw [if_pos h]
    rw [char_toNat_ofNat_valid (by omega)]
    omega
  · rw [if_neg h]
    exact h

theorem toLower_toLower (c : Char) : c.toLower.toLower = c.toLower :=
  toLower_eq_self (toLower_not_upper c)

theorem isAlphanum_space_false {c : Char} (h : isSpaceChar c = true) :
    c.isAlphanum = false := by
  have hc : c = ' ' ∨ c = '\t' ∨ c = '\r' ∨ c = '\n' := by
    simpa [isSpaceChar, Char.isWhitespace, or_assoc] using h
  rcases hc with h | h | h | h <;> subst h <;> decide

theorem upper_range_isAlphanum {c : Char} (h : 65 ≤ c.toNat ∧ c.toNat ≤ 90) :
    c.isAlphanum = true := by
  have h1 : c.isUpper = true := by
    simp only [Char.isUpper, ge_iff_le, Bool.and_eq_true, decide_eq_true_eq,
      UInt32.le_def, BitVec.le_def]
    exact ⟨h.1, h.2⟩
  simp [Char.isAlphanum, Char.isAlpha, h1]

-- ### `pyStrip` facts

theorem dropWhile_head?_false {p : Char → Bool} {l : List Char} {c : Char}
    (h : (l.dropWhile p).head? = some c) : p c = false := by
  have := List.head?_dropWhile_not p l
  rw [h] at this
  exact this

theorem pyStrip_subset (l : List Char) : ∀ c ∈ pyStrip l, c ∈ l := by
  intro c hc
  unfold pyStrip at hc
  rw [List.mem_reverse] at hc
  have h1 := List.dropWhile_subset (l := (l.dropWhile isSpaceChar).reverse) isSpaceChar hc
  rw [List.mem_reverse] at h1
  exact List.dropWhile_subset isSpaceChar h1

theorem pyStrip_front (l : List Char) :
    pyStrip l <+: l.dropWhile isSpaceChar := by
  unfold pyStrip
  have h : ((l.dropWhile isSpaceChar).reverse.dropWhile isSpaceChar) <:+
      (l.dropWhile isSpaceChar).reverse := List.dropWhile_suffix _
  have h2 := List.reverse_prefix.mpr h
  simpa using h2

theorem pyStrip_within (l : List Char) : pyStrip l <:+: l :=
  (pyStrip_front l).isInfix.trans (List.dropWhile_suffix isSpaceChar).isInfix

theorem prefix_head?_eq {l₁ l₂ : List Char} {c : Char} (h : l₁ <+: l₂)
    (hh : l₁.head? = some c) : l₂.head? = some c := by
  obtain ⟨r, hr⟩ := h
  subst hr
  cases l₁ with
  | nil => simp at hh
  | cons a t => simpa using hh

theorem pyStrip_head?_false {l : List Char} {c : Char}
    (h : (pyStrip l).head? = some c) : isSpaceChar c = false :=
  dropWhile_head?_false (prefix_head?_eq (pyStrip_front l) h)

theorem pyStrip_reverse_head?_false {l : List Char} {c : Char}
    (h : (pyStrip l).reverse.head? = some c) : isSpaceChar c = false := by
  unfold pyStrip at h
  rw [List.reverse_reverse] at h
  exact dropWhile_head?_false h

theorem pyStrip_eq_self {l : List Char}
    (h1 : ∀ c, l.head? = some c → isSpaceChar c = false)
    (h2 : ∀ c, l.reverse.head? = some c → isSpaceChar c = false) :
    pyStrip l = l := by
  unfold pyStrip
  have e1 : l.dropWhile isSpaceChar = l := by
    cases hl : l with
    | nil => simp
    | cons a t =>
      rw [List.dropWhile_cons]
      simp [h1 a (by rw [hl]; rfl)]
  rw [e1]
  have e2 : l.reverse.dropWhile isSpaceChar = l.reverse := by
    cases hl : l.reverse with
    | nil => simp
    | cons a t =>
      rw [List.dropWhile_cons]
      simp [h2 a (by rw [hl]; rfl)]
  rw [e2, List.reverse_reverse]

-- ### `collapseAux` facts

/-- Adjacent whitespace never survives collapsing. -/
def NoRun (a b : Char) : Prop := ¬(isSpaceChar a = true ∧ isSpaceChar b = true)

theorem collapseAux_mem : ∀ (l : List Char) (st : Bool) (c : Char),
    c ∈ collapseAux st l → c = ' ' ∨ (c ∈ l ∧ isSpaceChar c = false) := by
  intro l
  induction l with
  | nil => intro st c h; cases st <;> simp [collapseAux] at h
  | cons a t ih =>
    intro st c h
    by_cases ha : isSpaceChar a
    · cases st with
      | true =>
        rw [collapseAux, if_pos ha] at h
        rcases ih true c h with h' | h'
        · exact Or.inl h'
        · exact Or.inr ⟨List.mem_cons_of_mem a h'.1, h'.2⟩
      | false =>
        rw [collapseAux, if_pos ha] at h
        rcases List.mem_cons.mp h with h' | h'
        · exact Or.inl h'
        · rcases ih true c h' with h'' | h''
          · exact Or.inl h''
          · exact Or.inr ⟨List.mem_cons_of_mem a h''.1, h''.2⟩
    · have hstep : collapseAux st (a :: t) = a :: collapseAux false t := by
        cases st <;> rw [collapseAux, if_neg ha]
      rw [hstep] at h
      rcases List.mem_cons.mp h with h' | h'
      · rw [h']
        exact Or.inr ⟨List.mem_cons_self a t, by simpa using ha⟩
      · rcases ih false c h' with h'' | h''
        · exact Or.inl h''
        · exact Or.inr ⟨List.mem_cons_of_mem a h''.1, h''.2⟩

theorem collapseAux_true_head?_false : ∀ (l : List Char) (c : Char),
    (collapseAux true l).head? = some c → isSpaceChar c = false := by
  intro l
  induction l with
  | nil => intro c h; simp [collapseAux] at h
  | cons a t ih =>
    intro c h
    by_cases ha : isSpaceChar a
    · rw [collapseAux, if_pos ha] at h
      exact ih c h
    · rw [collapseAux, if_neg ha] at h
      cases h
      simpa using ha

theorem collapseAux_chain' : ∀ (l : List Char) (st : Bool),
    List.Chain' NoRun (collapseAux st l) := by
  intro l
  induction l with
  | nil => intro st; cases st <;> exact List.chain'_nil
  | cons a t ih =>
    intro st
    by_cases ha : isSpaceChar a
    · cases st with
      | true =>
        rw [collapseAux, if_pos ha]
        exact ih true
      | false =>
        rw [collapseAux, if_pos ha]
        rw [List.chain'_cons']
        refine ⟨?_, ih true⟩
        intro y hy
        have := collapseAux_true_head?_false t y hy
        intro hcon
        rw [this] at hcon
        exact absurd hcon.2 (by simp)
    · have hstep : collapseAux st (a :: t) = a :: collapseAux false t := by
        cases st <;> rw [collapseAux, if_neg ha]
      rw [hstep, List.chain'_cons']
      refine ⟨?_, ih false⟩
      intro y hy
      intro hcon
      rw [show isSpaceChar a = false by simpa using ha] at hcon
      exact absurd hcon.1 (by simp)

theorem collapseAux_eq_self : ∀ (l : List Char),
    (∀ c ∈ l, isSpaceChar c = true → c = ' ') → List.Chain' NoRun l →
    (collapseAux false l = l ∧
      ((∀ c, l.head? = some c → isSpaceChar c = false) → collapseAux true l = l)) := by
  intro l
  induction l with
  | nil => intro _ _; exact ⟨rfl, fun _ => rfl⟩
  | cons a t ih =>
    intro hmem hch
    have hch' := (List.chain'_cons'.mp hch)
    have iht := ih (fun c hc => hmem c (List.mem_cons_of_mem a hc)) hch'.2
    constructor
    · by_cases ha : isSpaceChar a
      · have ha' : a = ' ' := hmem a (List.mem_cons_self a t) ha
        rw [collapseAux, if_pos ha, ha']
        congr 1
        apply iht.2
        intro c hc
        have hr := hch'.1 c (by rw [hc]; rfl)
        unfold NoRun at hr
        by_contra hcon
        exact hr ⟨ha, by simpa using hcon⟩
      · rw [collapseAux, if_neg ha, iht.1]
    · intro hhead
      have ha : isSpaceChar a = false := hhead a rfl
      rw [collapseAux, if_neg (by simp [ha]), iht.1]

theorem collapseAux_allspace_true : ∀ (l : List Char),
    (∀ c ∈ l, isSpaceChar c = true) → collapseAux true l = [] := by
  intro l
  induction l with
  | nil => intro _; rfl
  | cons a t ih =>
    intro h
    rw [collapseAux, if_pos (h a (List.mem_cons_self a t))]
    exact ih (fun c hc => h c (List.mem_cons_of_mem a hc))

theorem collapseAux_allspace_false (l : List Char)
    (h : ∀ c ∈ l, isSpaceChar c = true) :
    collapseAux false l = [] ∨ collapseAux false l = [' '] := by
  cases l with
  | nil => exact Or.inl rfl
  | cons a t =>
    right
    rw [collapseAux, if_pos (h a (List.mem_cons_self a t))]
    rw [collapseAux_allspace_true t (fun c hc => h c (List.mem_cons_of_mem a hc))]

-- ### The normal form of `_kbbi_normalize` outputs

/-- Characters that can appear in a normalization result: lowercase-stable
alphanumerics or the single space. -/
def NormChar (c : Char) : Prop :=
  (c.isAlphanum = true ∧ ¬(65 ≤ c.toNat ∧ c.toNat ≤ 90)) ∨ c = ' '

/-- Shape invariant of `_kbbi_normalize` outputs. -/
def NormForm (l : List Char) : Prop :=
  (∀ c ∈ l, NormChar c) ∧ List.Chain' NoRun l ∧
  (∀ c, l.head? = some c → isSpaceChar c = false) ∧
  (∀ c, l.reverse.head? = some c → isSpaceChar c = false)

theorem map_eq_self_of_mem {f : Char → Char} {l : List Char}
    (h : ∀ c ∈ l, f c = c) : l.map f = l := by
  induction l with
  | nil => rfl
  | cons a t ih =>
    rw [List.map_cons, h a (List.mem_cons_self a t),
      ih (fun c hc => h c (List.mem_cons_of_mem a hc))]

theorem normChar_space_eq {c : Char} (h : NormChar c) (hs : isSpaceChar c = true) :
    c = ' ' := by
  rcases h with ⟨ha, _⟩ | h'
  · exact absurd ha (by rw [isAlphanum_space_false hs]; simp)
  · exact h'

theorem kbbiNormalizeL_normForm (s : List Char) : NormForm (kbbiNormalizeL s) := by
  unfold kbbiNormalizeL
  set s1 := pyStrip s with hs1
  set s2 := s1.map Char.toLower with hs2
  set s3 := s2.filter (fun c => isWordChar c || isSpaceChar c) with hs3
  set s4 := s3.map (fun c => if c = '_' then ' ' else c) with hs4
  set s5 := collapseSpaces s4 with hs5
  have h4 : ∀ c ∈ s4, (c.isAlphanum = true ∧ ¬(65 ≤ c.toNat ∧ c.toNat ≤ 90)) ∨
      isSpaceChar c = true := by
    intro c hc
    rw [hs4] at hc
    rcases List.mem_map.mp hc with ⟨b, hb, hbc⟩
    rw [hs3] at hb
    have hb1 := List.mem_filter.mp hb
    have hword : isWordChar b = true ∨ isSpaceChar b = true := by
      have := hb1.2
      simpa using this
    have hb2 : b ∈ s2 := hb1.1
    rw [hs2] at hb2
    rcases List.mem_map.mp hb2 with ⟨a, _, hab⟩
    have hnup : ¬(65 ≤ b.toNat ∧ b.toNat ≤ 90) := hab ▸ toLower_not_upper a
    by_cases hbu : b = '_'
    · right
      subst hbc
      rw [if_pos hbu]
      decide
    · subst hbc
      rw [if_neg hbu]
      rcases hword with hw | hw
      · left
        refine ⟨?_, hnup⟩
        rcases Bool.or_eq_true _ _ |>.mp hw with h' | h'
        · exact h'
        · exact absurd (by simpa using h') hbu
      · right
        exact hw
  have h5 : ∀ c ∈ s5, NormChar c := by
    intro c hc
    rw [hs5] at hc
    rcases collapseAux_mem s4 false c hc with h' | h'
    · exact Or.inr h'
    · rcases h4 c h'.1 with h'' | h''
      · exact Or.inl h''
      · rw [h'.2] at h''
        exact absurd h'' (by simp)
  refine ⟨?_, ?_, ?_, ?_⟩
  · intro c hc
    exact h5 c (pyStrip_subset s5 c hc)
  · exact List.Chain'.infix (collapseAux_chain' s4 false) (pyStrip_within s5)
  · intro c hc
    exact pyStrip_head?_false hc
  · intro c hc
    exact pyStrip_reverse_head?_false hc

theorem kbbiNormalizeL_eq_self {l : List Char} (h : NormForm l) :
    kbbiNormalizeL l = l := by
  obtain ⟨hmem, hch, hhd, hlast⟩ := h
  unfold kbbiNormalizeL
  have e1 : pyStrip l = l := pyStrip_eq_self hhd hlast
  rw [e1]
  have e2 : l.map Char.toLower = l := by
    apply map_eq_self_of_mem
    intro c hc
    rcases hmem c hc with ⟨_, hnup⟩ | hsp
    · exact toLower_eq_self hnup
    · subst hsp; decide
  rw [e2]
  have e3 : l.filter (fun c => isWordChar c || isSpaceChar c) = l := by
    rw [List.filter_eq_self]
    intro c hc
    rcases hmem c hc with ⟨ha, _⟩ | hsp
    · simp [isWordChar, ha]
    · subst hsp; decide
  rw [e3]
  have e4 : l.map (fun c => if c = '_' then ' ' else c) = l := by
    apply map_eq_self_of_mem
    intro c hc
    rcases hmem c hc with ⟨ha, _⟩ | hsp
    · rw [if_neg]
      intro hcon
      subst hcon
      exact absurd ha (by decide)
    · subst hsp; decide
  rw [e4]
  have e5 : collapseSpaces l = l := by
    unfold collapseSpaces
    exact (collapseAux_eq_self l (fun c hc hs => normChar_space_eq (hmem c hc) hs) hch).1
  rw [e5, e1]

theorem kbbiNormalizeL_idem (s : List Char) :
    kbbiNormalizeL (kbbiNormalizeL s) = kbbiNormalizeL s :=
  kbbiNormalizeL_eq_self (kbbiNormalizeL_normForm s)

theorem kbbiNormalize_idem (s : String) :
    kbbiNormalize (kbbiNormalize s) = kbbiNormalize s :=
  congrArg String.mk (kbbiNormalizeL_idem s.data)

theorem kbbiNormalizeL_nonword_nil {l : List Char}
    (h : ∀ c ∈ l, isWordChar c = false) : kbbiNormalizeL l = [] := by
  unfold kbbiNormalizeL
  have h1 : ∀ c ∈ pyStrip l, isWordChar c = false := fun c hc =>
    h c (pyStrip_subset l c hc)
  have h2 : ∀ c ∈ (pyStrip l).map Char.toLower, isWordChar c = false := by
    intro c hc
    rcases List.mem_map.mp hc with ⟨a, ha, hac⟩
    have hup : ¬(65 ≤ a.toNat ∧ a.toNat ≤ 90) := by
      intro hcon
      have := upper_range_isAlphanum hcon
      have hw := h1 a ha
      rw [isWordChar, this] at hw
      simp at hw
    rw [← hac, toLower_eq_self hup]
    exact h1 a ha
  have h3 : ∀ c ∈ ((pyStrip l).map Char.toLower).filter
      (fun c => isWordChar c || isSpaceChar c), isSpaceChar c = true := by
    intro c hc
    have hc' := List.mem_filter.mp hc
    have := h2 c hc'.1
    have hp := hc'.2
    rw [this] at hp
    simpa using hp
  have h4 : ∀ c ∈ (((pyStrip l).map Char.toLower).filter
      (fun c => isWordChar c || isSpaceChar c)).map (fun c => if c = '_' then ' ' else c),
      isSpaceChar c = true := by
    intro c hc
    rcases List.mem_map.mp hc with ⟨a, ha, hac⟩
    have hsa := h3 a ha
    by_cases h' : a = '_'
    · rw [← hac, if_pos h']; decide
    · rw [← hac, if_neg h']; exact hsa
  rcases collapseAux_allspace_false _ h4 with h5 | h5
  · unfold collapseSpaces
    rw [h5]
    rfl
  · unfold collapseSpaces
    rw [h5]
    rfl

/-- C3: `_kbbi_normalize` is idempotent; its output contains only
alphanumerics and single spaces (no punctuation), never two adjacent
spaces, and no leading or trailing space; and any input made solely of
punctuation and whitespace (no `\w` character at all) normalizes to the
empty string. -/
theorem C3_normalize_shape (s : String) :
    kbbiNormalize (kbbiNormalize s) = kbbiNormalize s ∧
    (∀ c ∈ (kbbiNormalize s).data, c.isAlphanum = true ∨ c = ' ') ∧
    List.Chain' (fun a b => ¬(a = ' ' ∧ b = ' ')) (kbbiNormalize s).data ∧
    (∀ c, (kbbiNormalize s).data.head? = some c → c ≠ ' ') ∧
    (∀ c, (kbbiNormalize s).data.reverse.head? = some c → c ≠ ' ') ∧
    ((∀ c ∈ s.data, isWordChar c = false) → kbbiNormalize s = "") := by
  obtain ⟨hmem, hch, hhd, hlast⟩ := kbbiNormalizeL_normForm s.data
  have hdata : (kbbiNormalize s).data = kbbiNormalizeL s.data := rfl
  refine ⟨kbbiNormalize_idem s, ?_, ?_, ?_, ?_, ?_⟩
  · intro c hc
    rw [hdata] at hc
    rcases hmem c hc with ⟨ha, _⟩ | hsp
    · exact Or.inl ha
    · exact Or.inr hsp
  · rw [hdata]
    refine List.Chain'.imp ?_ hch
    intro a b hab
    intro hcon
    exact hab ⟨by rw [hcon.1]; decide, by rw [hcon.2]; decide⟩
  · intro c hc
    rw [hdata] at hc
    have := hhd c hc
    intro hcon
    rw [hcon] at this
    exact absurd this (by decide)
  · intro c hc
    rw [hdata] at hc
    have := hlast c hc
    intro hcon
    rw [hcon] at this
    exact absurd this (by decide)
  · intro h
    have := kbbiNormalizeL_nonword_nil h
    unfold kbbiNormalize
    rw [String.ext_iff]
    exact this

/-- Witness for C3 at concrete inputs. -/
theorem C3_normalize_shape_witness :
    kbbiNormalize (kbbiNormalize " Pi.jar_ !!") = kbbiNormalize " Pi.jar_ !!" ∧
    kbbiNormalize "!!! ???" = "" := by
  refine ⟨(C3_normalize_shape " Pi.jar_ !!").1, ?_⟩
  exact (C3_normalize_shape "!!! ???").2.2.2.2.2 (by decide)

-- ### JSON values and Python dict primitives

/-- JSON values as produced by Python's `json` module.  Dicts are
association lists in insertion order (parsed dicts have unique keys);
numbers are modelled as integers, which the code never inspects beyond
truthiness. -/
inductive Json where
  | null : Json
  | bool (b : Bool) : Json
  | num (n : Int) : Json
  | str (s : String) : Json
  | arr (items : List Json) : Json
  | obj (fields : List (String × Json)) : Json
deriving Inhabited

/-- Python truthiness of a JSON value. -/
def jTruthy : Json → Bool
  | .null => false
  | .bool b => b
  | .num n => n != 0
  | .str s => s ≠ ""
  | .arr items => !items.isEmpty
  | .obj fields => !fields.isEmpty

/-- Python `a or b` (`b` is chosen exactly when `a` is falsy). -/
def jOr (a b : Json) : Json := if jTruthy a then a else b

/-- `d.get(k)` on a dict value (`None` when the key is absent); the code
only applies it to values already checked to be dicts. -/
def jGetD : Json → String → Json
  | .obj fields, k =>
    (match fields.find? (fun p => p.1 == k) with
     | some p => p.2
     | none => .null)
  | _, _ => .null

/-- `k in d` on a dict value. -/
def jHas : Json → String → Bool
  | .obj fields, k => (fields.find? (fun p => p.1 == k)).isSome
  | _, _ => false

/-- Python `str(...)` of a JSON value, total and deterministic.  Container
renderings are abbreviated: the code only strips the result, tests it for
emptiness and stores it, and `str(x)` is empty only for the empty
string. -/
def pyStr : Json → String
  | .str s => s
  | .num n => toString n
  | .bool b => if b then "True" else "False"
  | .null => "None"
  | .arr _ => "[\x2e\x2e\x2e]"
  | .obj _ => "\x7b\x2e\x2e\x2e\x7d"

/-- `d.get(k)` on a Python dict modelled as an insertion-ordered
association list. -/
def alook {α : Type} (l : List (String × α)) (k : String) : Option α :=
  (l.find? (fun p => p.1 == k)).map (fun p => p.2)

/-- `d[k] = v`: replace the binding in place, or append if absent
(Python dicts keep the original position on reassignment; keys are
unique in every dict the code builds). -/
def aupd {α : Type} : List (String × α) → String → α → List (String × α)
  | [], k, v => [(k, v)]
  | p :: t, k, v => if p.1 == k then (k, v) :: t else p :: aupd t k v

theorem alook_nil {α : Type} (k : String) : alook ([] : List (String × α)) k = none := rfl

theorem alook_aupd_self {α : Type} (l : List (String × α)) (k : String) (v : α) :
    alook (aupd l k v) k = some v := by
  induction l with
  | nil => simp [aupd, alook]
  | cons p t ih =>
    rw [aupd]
    by_cases hp : p.1 == k
    · rw [if_pos hp]
      simp [alook]
    · rw [if_neg hp]
      unfold alook
      rw [List.find?_cons_of_neg _ (by simpa using hp)]
      exact ih

theorem alook_aupd_other {α : Type} (l : List (String × α)) (k k' : String) (v : α)
    (h : k' ≠ k) : alook (aupd l k v) k' = alook l k' := by
  induction l with
  | nil => simp [aupd, alook, Ne.symm h]
  | cons p t ih =>
    rw [aupd]
    by_cases hp : p.1 == k
    · rw [if_pos hp]
      unfold alook
      rw [List.find?_cons_of_neg _ (by simp [Ne.symm h]),
        List.find?_cons_of_neg _ (by simp [show p.1 = k by simpa using hp, Ne.symm h])]
    · rw [if_neg hp]
      by_cases hp' : p.1 == k'
      · unfold alook
        rw [List.find?_cons, List.find?_cons]
        simp only [hp']
      · unfold alook
        rw [List.find?_cons_of_neg _ (by simpa using hp'),
          List.find?_cons_of_neg _ (by simpa using hp')]
        exact ih

/-- `for x in xs: if x not in acc: acc.append(x)`. -/
def dedupAppend (acc xs : List String) : List String :=
  xs.foldl (fun a x => if x ∈ a then a else a ++ [x]) acc

theorem dedupAppend_nodup {acc : List String} (xs : List String)
    (h : acc.Nodup) : (dedupAppend acc xs).Nodup := by
  induction xs generalizing acc with
  | nil => exact h
  | cons x t ih =>
    unfold dedupAppend
    rw [List.foldl_cons]
    by_cases hx : x ∈ acc
    · rw [if_pos hx]
      exact ih h
    · rw [if_neg hx]
      apply ih
      rw [List.nodup_append]
      exact ⟨h, List.nodup_singleton x, by simpa using hx⟩

/-- Insertion step of Python `sorted` on strings. -/
def insertStr (x : String) : List String → List String
  | [] => [x]
  | y :: ys => if x ≤ y then x :: y :: ys else y :: insertStr x ys

/-- Python `sorted` on a list of strings (ascending). -/
def pySorted (l : List String) : List String := l.foldr insertStr []

-- ### Common payload shapes

/-- One sense of an API payload (`{kelas, deskripsi, contoh, sinonim,
antonim}`); the three lists carry raw JSON items. -/
structure Makna where
  kelas : String
  deskripsi : String
  contoh : List Json
  sinonim : List Json
  antonim : List Json

/-- One entry of an API payload (`{lema, makna}`); `lema` holds whatever
value the code put there (`None`, a string, or raw nested data). -/
structure PEntri where
  lema : Json
  makna : List Makna

-- ### `kbbi_simple.py`: the built-in fallback corpus

/-- `normalize_kata` from `kbbi_simple.py` (note: this is
`kata.lower().strip()`, not `_kbbi_normalize`). -/
def normalize_kata (kata : String) : String := pyStripStr (pyLowerStr kata)

/-- Record shape of the hardcoded `KBBI_DATA` values. -/
structure SimpleRec where
  lema : List String
  definisi : List String
  entri : List PEntri

/-- Helper to transcribe a hardcoded sense whose lists are strings. -/
def mkMakna (kelas deskripsi : String) (contoh sinonim antonim : List String) : Makna :=
  ⟨kelas, deskripsi, contoh.map Json.str, sinonim.map Json.str, antonim.map Json.str⟩

/-- The hardcoded corpus `KBBI_DATA` of `kbbi_simple.py`, transcribed. -/
def KBBI_DATA : List (String × SimpleRec) :=
  [("pijar",
    { lema := ["pijar"],
      definisi := ["[n] bara api; api yang menyala-nyala",
                   "[a] berpijar; bersinar terang seperti api"],
      entri := [⟨Json.str "pijar",
        [mkMakna "n" "bara api; api yang menyala-nyala"
            ["Pijar api unggun menerangi malam"] ["bara", "api"] [],
         mkMakna "a" "berpijar; bersinar terang seperti api"
            ["Matanya pijar penuh semangat"] ["bersinar", "berkilau"]
            ["redup", "padam"]]⟩] }),
   ("rumah",
    { lema := ["rumah"],
      definisi := ["[n] bangunan untuk tempat tinggal",
                   "[n] bangunan pada umumnya (seperti toko, kantor, sekolah)"],
      entri := [⟨Json.str "rumah",
        [mkMakna "n" "bangunan untuk tempat tinggal"
            ["Rumah kami terletak di ujung jalan"] ["hunian", "tempat tinggal"] []]⟩] }),
   ("buku",
    { lema := ["buku"],
      definisi := ["[n] lembar kertas yang berjilid, berisi tulisan atau kosong"],
      entri := [⟨Json.str "buku",
        [mkMakna "n" "lembar kertas yang berjilid, berisi tulisan atau kosong"
            ["Buku ini sangat menarik untuk dibaca"] ["kitab"] []]⟩] })]

/-- `cari_kata` from `kbbi_simple.py`. -/
def cari_kata (kata : String) : Option SimpleRec :=
  alook KBBI_DATA (normalize_kata kata)

/-- `get_saran` from `kbbi_simple.py`: keys of `KBBI_DATA` that start
with the first two characters of the normalized query, sorted, first 5. -/
def get_saran (kata : String) : List String :=
  (pySorted ((KBBI_DATA.map Prod.fst).filter
    (fun k => pyStartsWith k (pyTake (normalize_kata kata) 2)))).take 5

-- ### Word database (`kbbi_word_data*.json`)

/-- Insertion step for sorting shard files by filename. -/
def insertShard {α : Type} (x : String × α) : List (String × α) → List (String × α)
  | [] => [x]
  | y :: ys => if x.1 ≤ y.1 then x :: y :: ys else y :: insertShard x ys

/-- `sorted(glob.glob(...))`: shard files ordered by filename. -/
def sortShards {α : Type} (l : List (String × α)) : List (String × α) :=
  l.foldr insertShard []

/-- The top-level key/value pairs a shard contributes: none when the file
failed to read/parse (`none`) or does not hold a dict. -/
def shardPairs (shard : String × Option Json) : List (String × Json) :=
  match shard.2 with
  | some (Json.obj kvs) => kvs
  | _ => []

/-- First-occurrence-wins insertion of one shard's pairs
(`if k not in combined: combined[k] = v`). -/
def mergeShardPairs (combined : List (String × Json)) (kvs : List (String × Json)) :
    List (String × Json) :=
  kvs.foldl (fun comb kv =>
    if (alook comb kv.1).isSome then comb else comb ++ [kv]) combined

/-- `_kbbi_load_word_db_raw`: merge shard dicts in sorted filename order,
keeping the first occurrence of each top-level key. -/
def load_word_db_raw (shards : List (String × Option Json)) : List (String × Json) :=
  (sortShards shards).foldl (fun combined shard => mergeShardPairs combined (shardPairs shard)) []

/-- `(rec or {}).get("data")`: `none` models the `AttributeError` raised
when `rec` is a truthy non-dict. -/
def recGetData (rec0 : Json) : Option Json :=
  if jTruthy rec0 then
    match rec0 with
    | Json.obj _ => some (jGetD rec0 "data")
    | _ => none
  else some Json.null

/-- The `entri` list of a record: `data = (rec or {}).get("data") or {}`,
`entri = data.get("entri") or []`; a non-list `entri` yields no items
(the loops are guarded by `isinstance(..., list)`). -/
def recEntriList (rec0 : Json) : Option (List Json) := do
  let dataJ ← recGetData rec0
  let data := jOr dataJ (Json.obj [])
  let entJ ← (match data with
    | Json.obj _ => some (jGetD data "entri")
    | _ => none)
  match jOr entJ (Json.arr []) with
  | Json.arr es => some es
  | _ => some []

/-- Normalized embedded lemma names of a record, in `entri` order
(the `by_lema` loop of `_kbbi_build_word_index`). -/
def wordEntriNamas (rec0 : Json) : Option (List String) :=
  match recEntriList rec0 with
  | none => none
  | some es =>
      some (es.filterMap (fun ent =>
        match ent with
        | Json.obj _ =>
            (match jOr (jGetD ent "nama") (jGetD ent "lema") with
             | Json.str s =>
                 if kbbiNormalize s ≠ "" then some (kbbiNormalize s) else none
             | _ => none)
        | _ => none))

/-- `wordEntriNamas` with a raised error collapsed to no names (only used
to state theorems about successful builds). -/
def recLemas (rec0 : Json) : List String := (wordEntriNamas rec0).getD []

/-- The three word-database maps (`raw` itself is the input). -/
structure WordIndex where
  by_key : List (String × Json)
  by_lema : List (String × Json)
  orig_key : List (String × String)

/-- First-writer-wins insertion of one record's lemma names into
`by_lema` (`if ln and ln not in by_lema: by_lema[ln] = rec`). -/
def insertLemas (bl : List (String × Json)) (lns : List String) (rec0 : Json) :
    List (String × Json) :=
  lns.foldl (fun bl' ln => if (alook bl' ln).isSome then bl' else bl' ++ [(ln, rec0)]) bl

/-- Per-record step of `_kbbi_build_word_index`: record the normalized
top-level key (when non-empty), then the record's embedded lemma names
first-writer-wins; a raised error (`none`) aborts the whole build. -/
def buildWordStep (idx : WordIndex) (kv : String × Json) : Option WordIndex :=
  match wordEntriNamas kv.2 with
  | none => none
  | some lns =>
      if kbbiNormalize kv.1 = "" then
        some { idx with by_lema := insertLemas idx.by_lema lns kv.2 }
      else
        some { by_key := aupd idx.by_key (kbbiNormalize kv.1) kv.2,
               by_lema := insertLemas idx.by_lema lns kv.2,
               orig_key := aupd idx.orig_key (kbbiNormalize kv.1) kv.1 }

/-- `_kbbi_build_word_index` over an already-merged raw dict; `none` when
the build raises (which makes every word-db lookup fail). -/
def build_word_index (raw : List (String × Json)) : Option WordIndex :=
  raw.foldlM buildWordStep ⟨[], [], []⟩

/-- `_first_kelas`: first class code/name of a sense dict; `none` models
`.strip()` raising on a truthy non-string `kode`/`nama`. -/
def first_kelas (m : Json) : Option String :=
  match jOr (jGetD m "kelas") (Json.arr []) with
  | Json.arr [] => some ""
  | Json.arr (k0 :: _) =>
      (match k0 with
       | Json.obj _ =>
           (match jOr (jGetD k0 "kode") (jOr (jGetD k0 "nama") (Json.str "")) with
            | Json.str s => some (pyStripStr s)
            | _ => none)
       | Json.str s => some (pyStripStr s)
       | _ => some "")
  | Json.str s => some (pyStripStr s)
  | _ => some ""

/-- Bracketed definition string: `f"[{label}] {st}" if label else st`. -/
def fmtDef (label st : String) : String :=
  if label ≠ "" then "[" ++ label ++ "] " ++ st else st

/-- Per-sense block of `_kbbi_transform_word_record`: the `makna`
payloads and formatted definition strings one sense dict contributes. -/
def transformMakna (m : Json) : Option (List Makna × List String) := do
  let cls ← first_kelas m
  let subs := jOr (jGetD m "submakna") (jOr (jGetD m "arti")
      (jOr (jGetD m "definisi") (Json.arr [])))
  let contoh := match jGetD m "contoh" with | Json.arr xs => xs | _ => []
  let sinonim := match jGetD m "sinonim" with | Json.arr xs => xs | _ => []
  let antonim := match jGetD m "antonim" with | Json.arr xs => xs | _ => []
  match subs with
  | Json.arr ss =>
      let picked := ss.filterMap (fun s =>
        let st := pyStripStr (pyStr s)
        if st = "" then none else some st)
      some (picked.map (fun st => ⟨cls, st, contoh, sinonim, antonim⟩),
            picked.map (fun st => fmtDef cls st))
  | Json.str s0 =>
      let st := pyStripStr s0
      if st = "" then some ([], [])
      else some ([⟨cls, st, contoh, sinonim, antonim⟩], [fmtDef cls st])
  | _ => some ([], [])

/-- `_kbbi_transform_word_record`: one raw record to
`(lema, definisi, entri)`; `none` when the Python code would raise,
which skips the word-db source. -/
def transform_word_record (rec0 : Json) :
    Option (List String × List String × List PEntri) := do
  let es ← recEntriList rec0
  let acc ← es.foldlM
    (fun (acc : List String × List String × List PEntri) e =>
      match e with
      | Json.obj _ => do
          let nama := jOr (jGetD e "nama") (jOr (jGetD e "lema") (Json.str ""))
          let lemmaAdd := match nama with
            | Json.str s => if pyStripStr s ≠ "" then [pyStripStr s] else []
            | _ => []
          let mksdfs ← (match jOr (jGetD e "makna") (Json.arr []) with
            | Json.arr ms => ms.foldlM
                (fun (md : List Makna × List String) m =>
                  match m with
                  | Json.obj _ => do
                      let md1 ← transformMakna m
                      pure (md.1 ++ md1.1, md.2 ++ md1.2)
                  | _ => pure md) (([], []) : List Makna × List String)
            | _ => pure (([], []) : List Makna × List String))
          pure (acc.1 ++ lemmaAdd, acc.2.1 ++ mksdfs.2, acc.2.2 ++ [⟨nama, mksdfs.1⟩])
      | _ => pure acc)
    (([], [], []) : List String × List String × List PEntri)
  pure (dedupAppend [] acc.1, acc.2.1, acc.2.2)

/-- `a or b` over the two index lookups followed by `if not rec`: the
first truthy record, if any. -/
def firstTruthy (a b : Option Json) : Option Json :=
  match a with
  | some v => if jTruthy v then some v else (match b with
      | some w => if jTruthy w then some w else none
      | none => none)
  | none => match b with
      | some w => if jTruthy w then some w else none
      | none => none

/-- `_kbbi_lookup_word_db`: `none` covers "no match" and every raised
error (build or transform), all of which make `kbbi_cek` move on to the
next source. -/
def lookup_word_db (raw : List (String × Json)) (kata : String) :
    Option (List String × List String × List PEntri) := do
  let idx ← build_word_index raw
  let rec0 ← firstTruthy (alook idx.by_key (kbbiNormalize kata))
    (alook idx.by_lema (kbbiNormalize kata))
  transform_word_record rec0

/-- `_kbbi_word_suggestions`: original keys whose normalized key starts
with the prefix, in index insertion order, first `limit` of them; `none`
when the index build raises (no contribution then). -/
def word_suggestions (raw : List (String × Json)) (pref : String) (limit : Nat) :
    Option (List String) := do
  let idx ← build_word_index raw
  pure (((idx.orig_key.filter (fun p => pyStartsWith p.1 pref)).map Prod.snd).take limit)

-- ### Corpus ingestion (`_kbbi_load_all_parts`)

/-- An abstract decoder standing for Python's
`json.JSONDecoder().raw_decode` and `json.loads`/`ujson.loads`:
`dec t i` returns the value starting at offset `i` together with the
offset just past it, or `none` when decoding fails there; a decoded
value always occupies at least one character.  `loads` parses a whole
text (`none` = raised). -/
structure Decoder where
  dec : List Char → Nat → Option (Json × Nat)
  loads : List Char → Option Json
  dec_progress : ∀ t i o e, dec t i = some (o, e) → i < e

/-- The whitespace-skipping loop of `_multi_json_objects`. -/
def skipWs (t : List Char) (i : Nat) : Nat :=
  if h : i < t.length then
    if isSpaceChar (t.get ⟨i, h⟩) then skipWs t (i + 1) else i
  else i
termination_by t.length - i

theorem skipWs_ge (t : List Char) (i : Nat) : i ≤ skipWs t i := by
  rw [skipWs]
  split
  · split
    · exact Nat.le_trans (Nat.le_succ i) (skipWs_ge t (i + 1))
    · exact Nat.le_refl i
  · exact Nat.le_refl i
termination_by t.length - i

/-- Scanning loop of `_multi_json_objects`: skip whitespace, decode one
document, continue past it; on a decode failure advance one character
and retry, so a corrupt region is skipped without aborting the file. -/
def multiGo (D : Decoder) (t : List Char) (i : Nat) : List Json :=
  if hi : i < t.length then
    if hj : skipWs t i < t.length then
      match hd : D.dec t (skipWs t i) with
      | some oe => oe.1 :: multiGo D t oe.2
      | none => multiGo D t (skipWs t i + 1)
    else []
  else []
termination_by t.length - i
decreasing_by
  · have hprog := D.dec_progress t (skipWs t i) oe.1 oe.2 (by rw [hd])
    have hij := skipWs_ge t i
    omega
  · have hij := skipWs_ge t i
    omega

/-- `_multi_json_objects`. -/
def multi_json_objects (D : Decoder) (t : List Char) : List Json := multiGo D t 0

/-- Per-file document recovery: the back-to-back scan, falling back to a
whole-file parse when the scan recovered nothing. -/
def fileObjects (D : Decoder) (raw : List Char) : List Json :=
  let objs := multi_json_objects D raw
  if objs.isEmpty then
    match D.loads raw with
    | some o => [o]
    | none => []
  else objs

-- `_extract_entries` needs size lemmas for its recursion through `jGetD`.

theorem sizeOf_jGetD_lt (fields : List (String × Json)) (k : String) :
    sizeOf (jGetD (Json.obj fields) k) < sizeOf (Json.obj fields) := by
  simp only [jGetD]
  split
  · rename_i p hp
    have hmem := List.mem_of_find?_eq_some hp
    have h1 : sizeOf p < sizeOf fields := List.sizeOf_lt_of_mem hmem
    have h2 : sizeOf p.2 < sizeOf p := by
      obtain ⟨a, b⟩ := p
      simp
    simp only [Json.obj.sizeOf_spec]
    omega
  · simp only [Json.null.sizeOf_spec, Json.obj.sizeOf_spec]
    have : 0 < sizeOf fields := by
      cases fields <;> simp <;> omega
    omega

/-- `_is_entry`: a dict with `makna` and one of `nama`/`lema`/`kata`. -/
def isEntryJ (j : Json) : Bool :=
  jHas j "makna" && (jHas j "nama" || jHas j "lema" || jHas j "kata")

/-- Container keys whose list elements are taken as entries directly. -/
def entryKeys : List String := ["entri", "entries"]

/-- Wrapper keys recursed into when their value is a list. -/
def wrapperKeys : List String := ["data", "daftar", "list", "result", "results"]

/-- All keys excluded from the generic recursion. -/
def knownKeys : List String :=
  ["entri", "entries", "data", "daftar", "list", "result", "results"]

/-- `_extract_entries`: collect entry dicts from one parsed document, in
append order.  The Python original also deduplicates by object identity
(`id(...)`); values produced by the `json` decoder form trees without
aliasing, so that mechanism never fires and is omitted here. -/
def extractEntries (j : Json) : List Json :=
  match j with
  | Json.obj fields =>
      (entryKeys.flatMap (fun key =>
        match jGetD (Json.obj fields) key with
        | Json.arr items => items.filter (fun it => match it with
            | Json.obj _ => true
            | _ => false)
        | _ => [])) ++
      (wrapperKeys.flatMap (fun key =>
        match hw : jGetD (Json.obj fields) key with
        | Json.arr items => items.attach.flatMap (fun it => extractEntries it.1)
        | _ => [])) ++
      (fields.attach.flatMap (fun kv =>
        if kv.1.1 ∈ knownKeys then [] else extractEntries kv.1.2)) ++
      (if isEntryJ (Json.obj fields) then [Json.obj fields] else [])
  | Json.arr items => items.attach.flatMap (fun it => extractEntries it.1)
  | _ => []
termination_by sizeOf j
decreasing_by
  · have h1 : sizeOf it.1 < sizeOf items := List.sizeOf_lt_of_mem it.2
    have h2 := sizeOf_jGetD_lt fields key
    rw [hw] at h2
    simp only [Json.arr.sizeOf_spec] at h2
    omega
  · have h1 : sizeOf kv.1 < sizeOf fields := List.sizeOf_lt_of_mem kv.2
    have h2 : sizeOf kv.1.2 < sizeOf kv.1 := by
      obtain ⟨⟨a, b⟩, hab⟩ := kv
      simp
    simp only [Json.obj.sizeOf_spec]
    omega
  · have h1 : sizeOf it.1 < sizeOf items := List.sizeOf_lt_of_mem it.2
    simp only [Json.arr.sizeOf_spec]
    omega

/-- `_kbbi_load_all_parts` given the already-read shard files, in sorted
path order; `none` entries are files whose read raised (logged and
skipped). -/
def load_all_parts (D : Decoder) (files : List (Option (List Char))) : List Json :=
  files.foldl (fun acc f =>
    match f with
    | none => acc
    | some raw => acc ++ (fileObjects D raw).flatMap extractEntries) []

-- ### Offline index (`_kbbi_build_index`)

/-- Bucket of the offline index: lemma variants (sorted on completion)
and deduplicated definition strings. -/
structure Bucket where
  lema : List String
  definisi : List String
deriving Inhabited, DecidableEq

/-- Nested lemma fallback: first of `text`/`value`/`nama` inside the
`nama` object that is a non-blank string. -/
def nestedNama (raw_nama : Json) : String :=
  match jGetD raw_nama "text" with
  | Json.str s =>
      if pyStripStr s ≠ "" then pyStripStr s
      else match jGetD raw_nama "value" with
        | Json.str s2 =>
            if pyStripStr s2 ≠ "" then pyStripStr s2
            else match jGetD raw_nama "nama" with
              | Json.str s3 => if pyStripStr s3 ≠ "" then pyStripStr s3 else ""
              | _ => ""
        | _ => match jGetD raw_nama "nama" with
            | Json.str s3 => if pyStripStr s3 ≠ "" then pyStripStr s3 else ""
            | _ => ""
  | _ =>
      match jGetD raw_nama "value" with
      | Json.str s2 =>
          if pyStripStr s2 ≠ "" then pyStripStr s2
          else match jGetD raw_nama "nama" with
            | Json.str s3 => if pyStripStr s3 ≠ "" then pyStripStr s3 else ""
            | _ => ""
      | _ => match jGetD raw_nama "nama" with
          | Json.str s3 => if pyStripStr s3 ≠ "" then pyStripStr s3 else ""
          | _ => ""

/-- Lemma-name resolution of `_kbbi_build_index`: `nama` when it is a
string, else `lema`/`kata`, else (when nothing non-blank was found and
`nama` is a dict) the nested fallback; `""` means "skip this entry". -/
def offlineEntryNama (entry : Json) : String :=
  let raw_nama := jGetD entry "nama"
  let nama0 : Option String :=
    match raw_nama with
    | Json.str s => some (pyStripStr s)
    | _ =>
        match jGetD entry "lema" with
        | Json.str s => some (pyStripStr s)
        | _ =>
            match jGetD entry "kata" with
            | Json.str s => some (pyStripStr s)
            | _ => none
  let nested : String :=
    match raw_nama with
    | Json.obj _ => nestedNama raw_nama
    | _ => ""
  match nama0 with
  | some s => if s ≠ "" then s else nested
  | none => nested

/-- Class label of one sense in `_kbbi_build_index` (only the
first-element-dict case assigns a label there); `none` models `.strip()`
raising on a truthy non-string. -/
def offlineMaknaLabel (m : Json) : Option String :=
  match jOr (jGetD m "kelas") (Json.arr []) with
  | Json.arr (k0 :: _) =>
      (match k0 with
       | Json.obj _ =>
           (match jOr (jGetD k0 "kode") (jOr (jGetD k0 "nama") (Json.str "")) with
            | Json.str s => some (pyStripStr s)
            | _ => none)
       | _ => some "")
  | _ => some ""

/-- Definition strings one `makna` item contributes in
`_kbbi_build_index`; a non-dict item is stringified bare. -/
def offlineMaknaDefs (m : Json) : Option (List String) :=
  match m with
  | Json.obj _ => do
      let label ← offlineMaknaLabel m
      let sub := jOr (jGetD m "submakna") (jOr (jGetD m "arti")
          (jOr (jGetD m "definisi") (Json.arr [])))
      match sub with
      | Json.arr ss => pure (ss.filterMap (fun s =>
          let st := pyStripStr (pyStr s)
          if st = "" then none else some (fmtDef label st)))
      | Json.str s0 =>
          let st := pyStripStr s0
          pure (if st = "" then [] else [fmtDef label st])
      | _ => pure []
  | _ =>
      let txt := pyStripStr (pyStr m)
      pure (if txt = "" then [] else [txt])

/-- All definition strings of one entry (`makna` list). -/
def offlineEntryDefs (entry : Json) : Option (List String) :=
  match jOr (jGetD entry "makna") (Json.arr []) with
  | Json.arr ms => ms.foldlM (fun acc m => do
      let ds ← offlineMaknaDefs m
      pure (acc ++ ds)) ([] : List String)
  | _ => pure []

/-- `for d in defs: if d and d not in bucket: bucket.append(d)`. -/
def bucketAddDefs (ds : List String) (defs : List String) : List String :=
  defs.foldl (fun acc d => if d ≠ "" ∧ d ∉ acc then acc ++ [d] else acc) ds

/-- Get-or-create the bucket at `key`, add the lemma variant and the
definitions. -/
def bucketInsert (idx : List (String × Bucket)) (key nama : String)
    (defs : List String) : List (String × Bucket) :=
  match alook idx key with
  | some b => aupd idx key
      { lema := if nama ∈ b.lema then b.lema else b.lema ++ [nama],
        definisi := bucketAddDefs b.definisi defs }
  | none => idx ++ [(key, { lema := [nama], definisi := bucketAddDefs [] defs })]

/-- Per-entry step of `_kbbi_build_index`. -/
def buildIndexStep (idx : List (String × Bucket)) (entry : Json) :
    Option (List (String × Bucket)) :=
  match entry with
  | Json.obj _ =>
      if offlineEntryNama entry = "" then some idx
      else if kbbiNormalize (offlineEntryNama entry) = "" then some idx
      else
        match offlineEntryDefs entry with
        | none => none
        | some defs =>
            some (bucketInsert idx (kbbiNormalize (offlineEntryNama entry))
              (offlineEntryNama entry) defs)
  | _ => none

/-- `_kbbi_build_index`: buckets keyed by normalized lemma; each bucket's
lemma-variant set is sorted once building completes.  `none` models an
exception escaping the builder. -/
def build_index (entries : List Json) : Option (List (String × Bucket)) :=
  match entries.foldlM buildIndexStep [] with
  | none => none
  | some idx => some (idx.map (fun p => (p.1, Bucket.mk (pySorted p.2.lema) p.2.definisi)))

-- ### The endpoint `kbbi_cek`

/-- One class item of a well-shaped remote serialization. -/
structure OnlineKelas where
  kode : String
  nama : String

/-- One sense of a well-shaped remote serialization. -/
structure OnlineMakna where
  kelas : List OnlineKelas
  submakna : List String
  contoh : List String
  sinonim : List String
  antonim : List String

/-- One entry of a well-shaped remote serialization (`entri[]` with
`nama` and `makna[]`).  Ill-shaped serializations raise during the
reshaping inside the same `try` block and are covered by
`RemoteOutcome.failure`. -/
structure OnlineEntri where
  nama : String
  makna : List OnlineMakna

/-- Outcome of `KBBIOnline(kata)` + `serialisasi()`: success,
`TidakDitemukan` (with the suggestions its `objek.saran_entri` yields,
possibly `[]`), or any other exception (timeout, transport error,
unexpected shape, reshaping error). -/
inductive RemoteOutcome where
  | success (serial : List OnlineEntri)
  | tidakDitemukan (saran : List String)
  | failure

/-- Reshape one remote sense (lines building `makna_list`). -/
def onlineMaknaPayload (m : OnlineMakna) : Makna :=
  let cls := match m.kelas with
    | [] => ""
    | k0 :: _ => pyStripStr (if k0.kode ≠ "" then k0.kode else k0.nama)
  let deskr := match m.submakna with
    | s :: _ => pyStripStr s
    | [] => ""
  ⟨cls, deskr, m.contoh.map Json.str, m.sinonim.map Json.str, m.antonim.map Json.str⟩

/-- Reshape one remote entry: an empty name is falsy and becomes
`None`. -/
def onlineEntriPayload (e : OnlineEntri) : PEntri :=
  ⟨if e.nama ≠ "" then Json.str e.nama else Json.null,
   e.makna.map onlineMaknaPayload⟩

/-- The response payload of `kbbi_cek`. -/
structure Payload where
  valid : Bool
  kata : String
  lema : List String
  definisi : List String
  entri : List PEntri
  saran : List String
  sumber : String
  cache_hit : Bool

/-- The payload built on a remote success (`sumber = "kbbi-online"`),
with `lema = sorted(set(...))` and bracket-formatted definitions. -/
def onlinePayload (kata : String) (serial : List OnlineEntri) : Payload :=
  let entri := serial.map onlineEntriPayload
  let lemmaNames := entri.filterMap (fun pe => match pe.lema with
    | Json.str s => if s ≠ "" then some s else none
    | _ => none)
  { valid := true, kata := kata, lema := pySorted lemmaNames.dedup,
    definisi := entri.flatMap (fun pe => pe.makna.filterMap (fun mk =>
      if mk.deskripsi ≠ "" then some (fmtDef mk.kelas mk.deskripsi) else none)),
    entri := entri, saran := [], sumber := "kbbi-online", cache_hit := false }

/-- Read-only context of one request: availability flags, the remote
capability, the merged word-db shards, and the memoized result of
`_kbbi_build_index()` (the claims below concern requests on which that
build did not raise). -/
structure KbbiEnv where
  onlineAvailable : Bool
  online : String → RemoteOutcome
  simpleAvailable : Bool
  wordRaw : List (String × Json)
  offlineIdx : List (String × Bucket)

/-- One `_KBBI_CACHE` record. -/
structure CacheEntry where
  ts : Int
  payload : Payload

/-- Mutable process state: `_KBBI_CACHE` and `_RATE_BUCKET`. -/
structure KbbiState where
  cache : List (String × CacheEntry)
  rate : List (String × List Int)

/-- HTTP-level responses of `kbbi_cek` (200/404/400/429). -/
inductive Resp where
  | ok (p : Payload)
  | notFound (error : String) (saran : List String)
  | badRequest (error : String)
  | tooMany (error : String)

def RATE_LIMIT_MAX : Nat := 60
def RATE_LIMIT_WINDOW : Int := 60
def CACHE_TTL : Int := 6 * 3600

/-- The per-IP sliding-window check: prune the bucket to the trailing
window; deny (recording nothing) at or above the cap, otherwise record
the current timestamp. -/
def rateCheck (st : KbbiState) (now : Int) (ip : String) : Option KbbiState :=
  let pruned := ((alook st.rate ip).getD []).filter
    (fun ts => now - ts < RATE_LIMIT_WINDOW)
  if RATE_LIMIT_MAX ≤ pruned.length then none
  else some { st with rate := aupd st.rate ip (pruned ++ [now]) }

/-- The cache read: a stored entry younger than the TTL is served as a
copy with the hit flag set.  (Stored payloads are always non-empty
dicts, so the `if payload:` guard in the code always passes.) -/
def cacheLookup (cache : List (String × CacheEntry)) (key : String) (now : Int) :
    Option Payload :=
  match alook cache key with
  | some c =>
      if now - c.ts < CACHE_TTL then some { c.payload with cache_hit := true }
      else none
  | none => none

/-- A freshly resolved 200 payload. -/
def mkOkPayload (kata : String) (lema definisi : List String)
    (entri : List PEntri) (sumber : String) : Payload :=
  { valid := true, kata := kata, lema := lema, definisi := definisi,
    entri := entri, saran := [], sumber := sumber, cache_hit := false }

/-- `_KBBI_CACHE[key_norm] = {"ts": now, "payload": payload}`. -/
def storeCache (st : KbbiState) (key : String) (now : Int) (p : Payload) :
    KbbiState :=
  { st with cache := aupd st.cache key ⟨now, p⟩ }

/-- Suggestion list on a total miss: built-in suggestions, then word-db
original keys by two-character normalized prefix, then sorted offline
keys by the same prefix, each deduplicated against what was already
collected, capped at 10. -/
def missSaran (env : KbbiEnv) (kata key_norm : String) : List String :=
  let pref := pyTake key_norm 2
  let c1 := dedupAppend [] (if env.simpleAvailable then get_saran kata else [])
  let c2 := dedupAppend c1 ((word_suggestions env.wordRaw pref 10).getD [])
  let offlineKeys := (pySorted ((env.offlineIdx.map Prod.fst).filter
      (fun k => pyStartsWith k pref))).take 10
  (dedupAppend c2 offlineKeys).take 10

/-- The offline part of the chain: word-db, then the built-in corpus,
then the offline index, then the 404 with suggestions. -/
def resolveOffline (env : KbbiEnv) (st : KbbiState) (kata key_norm : String)
    (now : Int) : Resp × KbbiState :=
  match lookup_word_db env.wordRaw kata with
  | some wd =>
      let p := mkOkPayload kata wd.1 wd.2.1 wd.2.2 "kbbi-worddb"
      (Resp.ok p, storeCache st key_norm now p)
  | none =>
    match (if env.simpleAvailable then cari_kata kata else none) with
    | some d =>
        let p := mkOkPayload kata d.lema d.definisi d.entri "kbbi-simple"
        (Resp.ok p, storeCache st key_norm now p)
    | none =>
      match alook env.offlineIdx key_norm with
      | some b =>
          let p := mkOkPayload kata b.lema b.definisi [] "kbbi-offline"
          (Resp.ok p, storeCache st key_norm now p)
      | none =>
          (Resp.notFound "kata tidak ditemukan" (missSaran env kata key_norm), st)

/-- The full resolution chain, remote source first.  On `TidakDitemukan`
the chain stops with a 404 (built-in suggestions substituted when the
remote attached none); on any other remote failure it falls through to
`resolveOffline`. -/
def kbbi_resolve (env : KbbiEnv) (st : KbbiState) (kata key_norm : String)
    (now : Int) : Resp × KbbiState :=
  if env.onlineAvailable then
    match env.online kata with
    | RemoteOutcome.success serial =>
        let p := onlinePayload kata serial
        (Resp.ok p, storeCache st key_norm now p)
    | RemoteOutcome.tidakDitemukan saran =>
        (Resp.notFound "kata tidak ditemukan"
          (if saran.isEmpty && env.simpleAvailable then get_saran kata else saran), st)
    | RemoteOutcome.failure => resolveOffline env st kata key_norm now
  else resolveOffline env st kata key_norm now

/-- `kbbi_cek`: strip the query, reject empty, rate-limit, consult the
cache, then run the resolution chain. -/
def kbbi_cek (env : KbbiEnv) (st : KbbiState) (kataArg ip : String) (now : Int) :
    Resp × KbbiState :=
  if pyStripStr kataArg = "" then
    (Resp.badRequest "parameter \x27kata\x27 wajib diisi", st)
  else
    match rateCheck st now ip with
    | none => (Resp.tooMany "Terlalu banyak permintaan, coba lagi nanti.", st)
    | some st1 =>
        match cacheLookup st1.cache (kbbiNormalize (pyStripStr kataArg)) now with
        | some p => (Resp.ok p, st1)
        | none => kbbi_resolve env st1 (pyStripStr kataArg)
            (kbbiNormalize (pyStripStr kataArg)) now

-- ### Control-flow lemmas about the chain

theorem kbbi_cek_resolve (env : KbbiEnv) (st st1 : KbbiState) (kataArg ip : String)
    (now : Int) (hkata : pyStripStr kataArg ≠ "")
    (hrate : rateCheck st now ip = some st1)
    (hcache : cacheLookup st1.cache (kbbiNormalize (pyStripStr kataArg)) now = none) :
    kbbi_cek env st kataArg ip now =
      kbbi_resolve env st1 (pyStripStr kataArg) (kbbiNormalize (pyStripStr kataArg)) now := by
  simp only [kbbi_cek, if_neg hkata, hrate, hcache]

theorem kbbi_resolve_offline (env : KbbiEnv) (st1 : KbbiState) (kata key_norm : String)
    (now : Int)
    (h : env.onlineAvailable = false ∨ env.online kata = RemoteOutcome.failure) :
    kbbi_resolve env st1 kata key_norm now = resolveOffline env st1 kata key_norm now := by
  unfold kbbi_resolve
  rcases h with h | h
  · rw [h]
    simp
  · by_cases ha : env.onlineAvailable
    · rw [if_pos ha, h]
    · rw [if_neg ha]

theorem rateCheck_cache {st st1 : KbbiState} {now : Int} {ip : String}
    (h : rateCheck st now ip = some st1) : st1.cache = st.cache := by
  simp only [rateCheck] at h
  split at h
  · exact absurd h (by simp)
  · cases h
    rfl

theorem rateCheck_rate {st st1 : KbbiState} {now : Int} {ip : String}
    (h : rateCheck st now ip = some st1) :
    st1.rate = aupd st.rate ip
      ((((alook st.rate ip).getD []).filter (fun ts => now - ts < RATE_LIMIT_WINDOW)) ++ [now]) := by
  simp only [rateCheck] at h
  split at h
  · exact absurd h (by simp)
  · cases h
    rfl

theorem resolveOffline_ok {env : KbbiEnv} {st : KbbiState} {kata key_norm : String}
    {now : Int} {p : Payload} {st2 : KbbiState}
    (h : resolveOffline env st kata key_norm now = (Resp.ok p, st2)) :
    p.cache_hit = false ∧ p.kata = kata ∧ p.valid = true ∧
    st2 = storeCache st key_norm now p := by
  unfold resolveOffline at h
  split at h
  · cases h
    exact ⟨rfl, rfl, rfl, rfl⟩
  · split at h
    · cases h
      exact ⟨rfl, rfl, rfl, rfl⟩
    · split at h
      · cases h
        exact ⟨rfl, rfl, rfl, rfl⟩
      · cases h

theorem kbbi_resolve_ok {env : KbbiEnv} {st : KbbiState} {kata key_norm : String}
    {now : Int} {p : Payload} {st2 : KbbiState}
    (h : kbbi_resolve env st kata key_norm now = (Resp.ok p, st2)) :
    p.cache_hit = false ∧ p.kata = kata ∧ p.valid = true ∧
    st2 = storeCache st key_norm now p := by
  unfold kbbi_resolve at h
  split at h
  · split at h
    · cases h
      exact ⟨rfl, rfl, rfl, rfl⟩
    · cases h
    · exact resolveOffline_ok h
  · exact resolveOffline_ok h

theorem resolveOffline_rate (env : KbbiEnv) (st : KbbiState) (kata key_norm : String)
    (now : Int) : (resolveOffline env st kata key_norm now).2.rate = st.rate := by
  unfold resolveOffline
  split
  · rfl
  · split
    · rfl
    · split
      · rfl
      · rfl

theorem kbbi_resolve_rate (env : KbbiEnv) (st : KbbiState) (kata key_norm : String)
    (now : Int) : (kbbi_resolve env st kata key_norm now).2.rate = st.rate := by
  unfold kbbi_resolve
  split
  · split
    · rfl
    · rfl
    · exact resolveOffline_rate env st kata key_norm now
  · exact resolveOffline_rate env st kata key_norm now

theorem resolveOffline_not_tooMany (env : KbbiEnv) (st : KbbiState)
    (kata key_norm : String) (now : Int) (e : String) :
    (resolveOffline env st kata key_norm now).1 ≠ Resp.tooMany e := by
  unfold resolveOffline
  split
  · intro hcon
    cases hcon
  · split
    · intro hcon
      cases hcon
    · split
      · intro hcon
        cases hcon
      · intro hcon
        cases hcon

theorem kbbi_resolve_not_tooMany (env : KbbiEnv) (st : KbbiState)
    (kata key_norm : String) (now : Int) (e : String) :
    (kbbi_resolve env st kata key_norm now).1 ≠ Resp.tooMany e := by
  unfold kbbi_resolve
  split
  · split
    · intro hcon
      cases hcon
    · intro hcon
      cases hcon
    · exact resolveOffline_not_tooMany env st kata key_norm now e
  · exact resolveOffline_not_tooMany env st kata key_norm now e

/-- C1: with the remote source unavailable or failing non-definitively,
the chain consults word-db, then the built-in corpus, then the offline
index, returning the first match as a 200 payload carrying that source's
provenance tag (`"kbbi-worddb"` / `"kbbi-simple"` for the built-in
fallback corpus / `"kbbi-offline"`) and `valid = true`. -/
theorem C1_chain_order (env : KbbiEnv) (st st1 : KbbiState) (kataArg ip : String)
    (now : Int)
    (hkata : pyStripStr kataArg ≠ "")
    (hrate : rateCheck st now ip = some st1)
    (hcache : cacheLookup st1.cache (kbbiNormalize (pyStripStr kataArg)) now = none)
    (hremote : env.onlineAvailable = false ∨
      env.online (pyStripStr kataArg) = RemoteOutcome.failure) :
    (∀ wd, lookup_word_db env.wordRaw (pyStripStr kataArg) = some wd →
       kbbi_cek env st kataArg ip now =
         (Resp.ok (mkOkPayload (pyStripStr kataArg) wd.1 wd.2.1 wd.2.2 "kbbi-worddb"),
          storeCache st1 (kbbiNormalize (pyStripStr kataArg)) now
            (mkOkPayload (pyStripStr kataArg) wd.1 wd.2.1 wd.2.2 "kbbi-worddb"))) ∧
    (lookup_word_db env.wordRaw (pyStripStr kataArg) = none →
     ∀ d, (if env.simpleAvailable then cari_kata (pyStripStr kataArg) else none) = some d →
       kbbi_cek env st kataArg ip now =
         (Resp.ok (mkOkPayload (pyStripStr kataArg) d.lema d.definisi d.entri "kbbi-simple"),
          storeCache st1 (kbbiNormalize (pyStripStr kataArg)) now
            (mkOkPayload (pyStripStr kataArg) d.lema d.definisi d.entri "kbbi-simple"))) ∧
    (lookup_word_db env.wordRaw (pyStripStr kataArg) = none →
     (if env.simpleAvailable then cari_kata (pyStripStr kataArg) else none) = none →
     ∀ b, alook env.offlineIdx (kbbiNormalize (pyStripStr kataArg)) = some b →
       kbbi_cek env st kataArg ip now =
         (Resp.ok (mkOkPayload (pyStripStr kataArg) b.lema b.definisi [] "kbbi-offline"),
          storeCache st1 (kbbiNormalize (pyStripStr kataArg)) now
            (mkOkPayload (pyStripStr kataArg) b.lema b.definisi [] "kbbi-offline"))) ∧
    (∀ kata lema defs ent s, (mkOkPayload kata lema defs ent s).valid = true ∧
       (mkOkPayload kata lema defs ent s).sumber = s) := by
  have hstep := kbbi_cek_resolve env st st1 kataArg ip now hkata hrate hcache
  rw [kbbi_resolve_offline env st1 _ _ now hremote] at hstep
  refine ⟨?_, ?_, ?_, fun _ _ _ _ _ => ⟨rfl, rfl⟩⟩
  · intro wd hwd
    rw [hstep]
    unfold resolveOffline
    rw [hwd]
  · intro hwd d hd
    rw [hstep]
    unfold resolveOffline
    rw [hwd, hd]
  · intro hwd hd b hb
    rw [hstep]
    unfold resolveOffline
    rw [hwd, hd, hb]

/-- Environment for the concrete scenarios: remote unavailable, built-in
corpus importable, no word-db shards, empty offline index. -/
def demoEnv : KbbiEnv :=
  ⟨false, fun _ => RemoteOutcome.failure, true, [], []⟩

def demoSt : KbbiState := ⟨[], []⟩

def demoSt1 : KbbiState := ⟨[], [("ip", [0])]⟩

def demoRumahRec : SimpleRec := (cari_kata "rumah").getD ⟨[], [], []⟩

/-- Witness for C1: `"rumah"` lives only in the built-in fallback corpus
and resolves through it with `valid = true`. -/
theorem C1_chain_order_witness :
    kbbi_cek demoEnv demoSt "rumah" "ip" 0 =
      (Resp.ok (mkOkPayload "rumah" demoRumahRec.lema demoRumahRec.definisi
         demoRumahRec.entri "kbbi-simple"),
       storeCache demoSt1 (kbbiNormalize "rumah") 0
         (mkOkPayload "rumah" demoRumahRec.lema demoRumahRec.definisi
           demoRumahRec.entri "kbbi-simple")) := by
  have h := (C1_chain_order demoEnv demoSt demoSt1 "rumah" "ip" 0
    (by decide) (by rfl) (by rfl) (Or.inl rfl)).2.1 (by rfl) demoRumahRec (by rfl)
  exact h

/-- C2: a definitive remote `TidakDitemukan` ends the chain at once with
a 404 whose suggestions come from the remote source (or from the
built-in corpus when the remote attached none); the state is left as it
was after rate-limiting (no cache write) and the word-db/offline sources
are never consulted.  Any other remote failure instead falls through to
the rest of the chain. -/
theorem C2_remote_definitive_miss (env : KbbiEnv) (st st1 : KbbiState)
    (kataArg ip : String) (now : Int)
    (hkata : pyStripStr kataArg ≠ "")
    (hrate : rateCheck st now ip = some st1)
    (hcache : cacheLookup st1.cache (kbbiNormalize (pyStripStr kataArg)) now = none)
    (honline : env.onlineAvailable = true) :
    (∀ saran, env.online (pyStripStr kataArg) = RemoteOutcome.tidakDitemukan saran →
       (kbbi_cek env st kataArg ip now =
         (Resp.notFound "kata tidak ditemukan"
           (if saran.isEmpty && env.simpleAvailable then get_saran (pyStripStr kataArg)
            else saran), st1)) ∧
       (∀ W O, kbbi_cek { env with wordRaw := W, offlineIdx := O } st kataArg ip now =
          kbbi_cek env st kataArg ip now)) ∧
    (env.online (pyStripStr kataArg) = RemoteOutcome.failure →
       kbbi_cek env st kataArg ip now =
         resolveOffline env st1 (pyStripStr kataArg)
           (kbbiNormalize (pyStripStr kataArg)) now) := by
  constructor
  · intro saran hsaran
    have hstep := kbbi_cek_resolve env st st1 kataArg ip now hkata hrate hcache
    have hbody : kbbi_resolve env st1 (pyStripStr kataArg)
        (kbbiNormalize (pyStripStr kataArg)) now =
        (Resp.notFound "kata tidak ditemukan"
          (if saran.isEmpty && env.simpleAvailable then get_saran (pyStripStr kataArg)
           else saran), st1) := by
      unfold kbbi_resolve
      rw [if_pos honline, hsaran]
    constructor
    · rw [hstep, hbody]
    · intro W O
      have hstep2 := kbbi_cek_resolve { env with wordRaw := W, offlineIdx := O }
        st st1 kataArg ip now hkata hrate hcache
      have hbody2 : kbbi_resolve { env with wordRaw := W, offlineIdx := O } st1
          (pyStripStr kataArg) (kbbiNormalize (pyStripStr kataArg)) now =
          (Resp.notFound "kata tidak ditemukan"
            (if saran.isEmpty && env.simpleAvailable then get_saran (pyStripStr kataArg)
             else saran), st1) := by
        unfold kbbi_resolve
        rw [if_pos honline, hsaran]
      rw [hstep, hbody, hstep2, hbody2]
  · intro hfail
    have hstep := kbbi_cek_resolve env st st1 kataArg ip now hkata hrate hcache
    rw [hstep, kbbi_resolve_offline env st1 _ _ now (Or.inr hfail)]

/-- Environment whose remote source definitively misses with no attached
suggestions. -/
def demoEnvMiss : KbbiEnv :=
  ⟨true, fun _ => RemoteOutcome.tidakDitemukan [], true, [], []⟩

/-- Witness for C2 at a concrete query: the 404 is immediate and its
suggestions come from the built-in corpus. -/
theorem C2_remote_definitive_miss_witness :
    kbbi_cek demoEnvMiss demoSt "zzz" "ip" 0 =
      (Resp.notFound "kata tidak ditemukan" (get_saran "zzz"), demoSt1) := by
  have h := ((C2_remote_definitive_miss demoEnvMiss demoSt demoSt1 "zzz" "ip" 0
    (by decide) (by rfl) (by rfl) rfl).1 [] rfl).1
  rw [h]
  rfl

-- ### C5: total-miss suggestions

theorem dedupAppend_length_ge {acc : List String} (xs : List String) :
    acc.length ≤ (dedupAppend acc xs).length := by
  induction xs generalizing acc with
  | nil => exact Nat.le_refl _
  | cons x t ih =>
    unfold dedupAppend
    rw [List.foldl_cons]
    by_cases hx : x ∈ acc
    · rw [if_pos hx]
      exact ih
    · rw [if_neg hx]
      refine Nat.le_trans ?_ (@ih (acc ++ [x]))
      simp

/-- C5: a query missing all four sources yields the 404 response whose
suggestion list merges built-in suggestions, word-db original keys by
two-character normalized prefix, and offline keys by the same prefix,
each deduplicated against what was collected before; the final list has
at most 10 elements and no duplicates. -/
theorem C5_miss_suggestions (env : KbbiEnv) (st st1 : KbbiState) (kataArg ip : String)
    (now : Int)
    (hkata : pyStripStr kataArg ≠ "")
    (hrate : rateCheck st now ip = some st1)
    (hcache : cacheLookup st1.cache (kbbiNormalize (pyStripStr kataArg)) now = none)
    (hremote : env.onlineAvailable = false ∨
      env.online (pyStripStr kataArg) = RemoteOutcome.failure)
    (hwd : lookup_word_db env.wordRaw (pyStripStr kataArg) = none)
    (hsimple : (if env.simpleAvailable then cari_kata (pyStripStr kataArg) else none) = none)
    (hoff : alook env.offlineIdx (kbbiNormalize (pyStripStr kataArg)) = none) :
    kbbi_cek env st kataArg ip now =
      (Resp.notFound "kata tidak ditemukan"
        (missSaran env (pyStripStr kataArg) (kbbiNormalize (pyStripStr kataArg))), st1) ∧
    (missSaran env (pyStripStr kataArg) (kbbiNormalize (pyStripStr kataArg))).length ≤ 10 ∧
    (missSaran env (pyStripStr kataArg) (kbbiNormalize (pyStripStr kataArg))).Nodup := by
  refine ⟨?_, ?_, ?_⟩
  · have hstep := kbbi_cek_resolve env st st1 kataArg ip now hkata hrate hcache
    rw [hstep, kbbi_resolve_offline env st1 _ _ now hremote]
    unfold resolveOffline
    rw [hwd, hsimple, hoff]
  · unfold missSaran
    exact List.length_take_le 10 _
  · unfold missSaran
    refine List.Nodup.sublist (List.take_sublist 10 _) ?_
    exact dedupAppend_nodup _ (dedupAppend_nodup _ (dedupAppend_nodup _ List.nodup_nil))

/-- Witness for C5 at a concrete total miss. -/
theorem C5_miss_suggestions_witness :
    kbbi_cek demoEnv demoSt "zzz" "ip" 0 =
      (Resp.notFound "kata tidak ditemukan" [], demoSt1) ∧
    ([] : List String).length ≤ 10 ∧ ([] : List String).Nodup := by
  have h := C5_miss_suggestions demoEnv demoSt demoSt1 "zzz" "ip" 0
    (by decide) (by rfl) (by rfl) (Or.inl rfl) (by rfl) (by rfl) (by rfl)
  refine ⟨?_, by simp, List.nodup_nil⟩
  rw [h.1]
  rfl

-- ### C6: the result cache

/-- C6: a cached entry is served exactly while `now - ts < TTL`: the
served payload is the stored one with only the hit flag set and the
cache is not mutated; at or past the TTL the entry is ignored and the
full resolution chain runs, whose fresh 200 payloads always carry
`cache_hit = false`. -/
theorem C6_cache_ttl (env : KbbiEnv) (st st1 : KbbiState) (kataArg ip : String)
    (now : Int) (c : CacheEntry)
    (hkata : pyStripStr kataArg ≠ "")
    (hrate : rateCheck st now ip = some st1)
    (hc : alook st1.cache (kbbiNormalize (pyStripStr kataArg)) = some c) :
    (now - c.ts < CACHE_TTL →
       kbbi_cek env st kataArg ip now =
         (Resp.ok { c.payload with cache_hit := true }, st1) ∧
       st1.cache = st.cache) ∧
    (¬(now - c.ts < CACHE_TTL) →
       kbbi_cek env st kataArg ip now =
         kbbi_resolve env st1 (pyStripStr kataArg)
           (kbbiNormalize (pyStripStr kataArg)) now) ∧
    (∀ p st2, kbbi_resolve env st1 (pyStripStr kataArg)
        (kbbiNormalize (pyStripStr kataArg)) now = (Resp.ok p, st2) →
      p.cache_hit = false) := by
  refine ⟨?_, ?_, ?_⟩
  · intro httl
    have hlook : cacheLookup st1.cache (kbbiNormalize (pyStripStr kataArg)) now =
        some { c.payload with cache_hit := true } := by
      simp only [cacheLookup, hc, if_pos httl]
    constructor
    · simp only [kbbi_cek, if_neg hkata, hrate, hlook]
    · exact rateCheck_cache hrate
  · intro httl
    have hlook : cacheLookup st1.cache (kbbiNormalize (pyStripStr kataArg)) now = none := by
      simp only [cacheLookup, hc, if_neg httl]
    simp only [kbbi_cek, if_neg hkata, hrate, hlook]
  · intro p st2 hres
    exact (kbbi_resolve_ok hres).1

/-- A stored payload for the C6 witness. -/
def demoPayload : Payload := mkOkPayload "rumah" ["rumah"] [] [] "kbbi-simple"

/-- State holding `demoPayload` cached under `"rumah"` at time 0. -/
def demoStC : KbbiState := ⟨[("rumah", ⟨0, demoPayload⟩)], []⟩

def demoStC1 : KbbiState := ⟨[("rumah", ⟨0, demoPayload⟩)], [("ip", [10])]⟩

/-- Witness for C6: a repeat of `"rumah"` ten seconds later is served
from the cache with only the hit flag set and the stored copy intact. -/
theorem C6_cache_ttl_witness :
    kbbi_cek demoEnv demoStC "rumah" "ip" 10 =
      (Resp.ok { demoPayload with cache_hit := true }, demoStC1) ∧
    demoStC1.cache = demoStC.cache := by
  have h := (C6_cache_ttl demoEnv demoStC demoStC1 "rumah" "ip" 10 ⟨0, demoPayload⟩
    (by decide) (by rfl) (by rfl)).1 (by decide)
  exact h

-- ### C7: the rate limiter

/-- C7: each check prunes the client's bucket to the trailing window;
below the cap the request proceeds (never a 429) and the current
timestamp is recorded; at the cap the request is denied with state fully
unchanged, independently of every lookup source.  Concretely, from a
fresh bucket the 61st same-window request is the first denied one. -/
theorem C7_rate_limit (env : KbbiEnv) (st : KbbiState) (kataArg ip : String)
    (now : Int)
    (hkata : pyStripStr kataArg ≠ "") :
    ((((alook st.rate ip).getD []).filter
        (fun ts => now - ts < RATE_LIMIT_WINDOW)).length < RATE_LIMIT_MAX →
       alook (kbbi_cek env st kataArg ip now).2.rate ip =
         some ((((alook st.rate ip).getD []).filter
           (fun ts => now - ts < RATE_LIMIT_WINDOW)) ++ [now]) ∧
       ∀ e, (kbbi_cek env st kataArg ip now).1 ≠ Resp.tooMany e) ∧
    (RATE_LIMIT_MAX ≤ (((alook st.rate ip).getD []).filter
        (fun ts => now - ts < RATE_LIMIT_WINDOW)).length →
       kbbi_cek env st kataArg ip now =
         (Resp.tooMany "Terlalu banyak permintaan, coba lagi nanti.", st)) ∧
    (∀ k : Nat, k < 60 →
       ∀ e, (kbbi_cek demoEnv ⟨[], [("ip", List.replicate k (0 : Int))]⟩
         "kata" "ip" 0).1 ≠ Resp.tooMany e) ∧
    (kbbi_cek demoEnv ⟨[], [("ip", List.replicate 60 (0 : Int))]⟩ "kata" "ip" 0 =
      (Resp.tooMany "Terlalu banyak permintaan, coba lagi nanti.",
       ⟨[], [("ip", List.replicate 60 (0 : Int))]⟩)) := by
  have halook : ∀ k : Nat, alook [("ip", List.replicate k (0 : Int))] "ip" =
      some (List.replicate k (0 : Int)) := by
    intro k
    simp [alook]
  have hreplicate : ∀ k : Nat,
      (List.replicate k (0 : Int)).filter
        (fun ts => (0 : Int) - ts < RATE_LIMIT_WINDOW) = List.replicate k (0 : Int) := by
    intro k
    rw [List.filter_eq_self]
    intro a ha
    rw [List.eq_of_mem_replicate ha]
    decide
  refine ⟨?_, ?_, ?_, ?_⟩
  · intro hlen
    have hrate : rateCheck st now ip = some
        ⟨st.cache, aupd st.rate ip ((((alook st.rate ip).getD []).filter
          (fun ts => now - ts < RATE_LIMIT_WINDOW)) ++ [now])⟩ := by
      simp only [rateCheck]
      rw [if_neg (by omega)]
    constructor
    · simp only [kbbi_cek, if_neg hkata, hrate]
      split
      · exact alook_aupd_self _ _ _
      · rw [kbbi_resolve_rate]
        exact alook_aupd_self _ _ _
    · intro e
      simp only [kbbi_cek, if_neg hkata, hrate]
      split
      · intro hcon
        cases hcon
      · exact kbbi_resolve_not_tooMany _ _ _ _ _ _
  · intro hlen
    have hrate : rateCheck st now ip = none := by
      simp only [rateCheck]
      rw [if_pos hlen]
    simp only [kbbi_cek, if_neg hkata, hrate]
  · intro k hk e
    have hrate : rateCheck ⟨[], [("ip", List.replicate k (0 : Int))]⟩ 0 "ip" = some
        ⟨[], aupd [("ip", List.replicate k (0 : Int))] "ip"
          (List.replicate k (0 : Int) ++ [0])⟩ := by
      simp only [rateCheck, halook k, Option.getD_some, hreplicate k]
      rw [if_neg (by simpa [RATE_LIMIT_MAX] using hk)]
    simp only [kbbi_cek, if_neg (by decide : ¬pyStripStr "kata" = ""), hrate]
    split
    · intro hcon
      cases hcon
    · exact kbbi_resolve_not_tooMany _ _ _ _ _ _
  · have hrate : rateCheck ⟨[], [("ip", List.replicate 60 (0 : Int))]⟩ 0 "ip" = none := by
      simp only [rateCheck, halook 60, Option.getD_some, hreplicate 60]
      rw [if_pos (by simp [RATE_LIMIT_MAX])]
    simp only [kbbi_cek, if_neg (by decide : ¬pyStripStr "kata" = ""), hrate]

/-- Witness for C7: a full bucket denies, a fresh bucket allows. -/
theorem C7_rate_limit_witness :
    kbbi_cek demoEnv ⟨[], [("ip", List.replicate 60 (0 : Int))]⟩ "kata" "ip" 0 =
      (Resp.tooMany "Terlalu banyak permintaan, coba lagi nanti.",
       ⟨[], [("ip", List.replicate 60 (0 : Int))]⟩) ∧
    (∀ e, (kbbi_cek demoEnv ⟨[], [("ip", [])]⟩ "kata" "ip" 0).1 ≠ Resp.tooMany e) := by
  constructor
  · exact (C7_rate_limit demoEnv demoSt "kata" "ip" 0 (by decide)).2.2.2
  · intro e
    have h := (C7_rate_limit demoEnv demoSt "kata" "ip" 0 (by decide)).2.2.1 0
      (by decide) e
    exact h

-- ### C10: the cache is keyed by the normalized query

/-- C10: two raw queries with the same normalization share one cache
entry: after a fresh 200 resolution of the first, the second (within the
TTL, under the rate limit) is answered with the first request's stored
payload verbatim — including the first request's raw word in `kata` —
with only `cache_hit` flipped to true, and the cache left unchanged. -/
theorem C10_cache_normalized_key (env : KbbiEnv) (st st2 st3 : KbbiState)
    (kata1Arg ip1 kata2Arg ip2 : String) (now1 now2 : Int) (p : Payload)
    (h1 : kbbi_cek env st kata1Arg ip1 now1 = (Resp.ok p, st2))
    (hfresh : p.cache_hit = false)
    (hk2 : pyStripStr kata2Arg ≠ "")
    (hnorm : kbbiNormalize (pyStripStr kata2Arg) = kbbiNormalize (pyStripStr kata1Arg))
    (hrate2 : rateCheck st2 now2 ip2 = some st3)
    (httl : now2 - now1 < CACHE_TTL) :
    kbbi_cek env st2 kata2Arg ip2 now2 = (Resp.ok { p with cache_hit := true }, st3) ∧
    p.kata = pyStripStr kata1Arg ∧
    st3.cache = st2.cache := by
  unfold kbbi_cek at h1
  split at h1
  · simp at h1
  · split at h1
    · simp at h1
    · rename_i st1' hrate1
      split at h1
      · rename_i q hq
        exfalso
        unfold cacheLookup at hq
        split at hq
        · rename_i c hc
          split at hq
          · have hqp : q = { c.payload with cache_hit := true } := by
              cases hq
              rfl
            have hpq : q = p ∧ st1' = st2 := by
              rw [Prod.mk.injEq] at h1
              exact ⟨by cases h1.1; rfl, h1.2⟩
            rw [← hpq.1, hqp] at hfresh
            simp at hfresh
          · cases hq
        · cases hq
      · have hok := kbbi_resolve_ok h1
        have hst2 : st2 = storeCache st1' (kbbiNormalize (pyStripStr kata1Arg)) now1 p :=
          hok.2.2.2
        have hcache3 : st3.cache = st2.cache := rateCheck_cache hrate2
        have hlook : alook st3.cache (kbbiNormalize (pyStripStr kata2Arg)) =
            some ⟨now1, p⟩ := by
          rw [hcache3, hst2, hnorm]
          exact alook_aupd_self _ _ _
        have hcl : cacheLookup st3.cache (kbbiNormalize (pyStripStr kata2Arg)) now2 =
            some { p with cache_hit := true } := by
          simp only [cacheLookup, hlook]
          rw [if_pos httl]
        refine ⟨?_, hok.2.1, hcache3⟩
        simp only [kbbi_cek, if_neg hk2, hrate2, hcl]

/-- State after the C1 witness request (the `"rumah"` payload cached
under its normalized key at time 0). -/
def demoSt2 : KbbiState :=
  storeCache demoSt1 (kbbiNormalize "rumah")  0
    (mkOkPayload "rumah" demoRumahRec.lema demoRumahRec.definisi
      demoRumahRec.entri "kbbi-simple")

def demoSt3 : KbbiState := ⟨demoSt2.cache, [("ip", [0, 1])]⟩

/-- The `"rumah"` request resolves through the built-in corpus and
stores its payload (shared scenario fact, proved by computation). -/
theorem demo_rumah_resolution :
    kbbi_cek demoEnv demoSt "rumah" "ip" 0 =
      (Resp.ok (mkOkPayload "rumah" demoRumahRec.lema demoRumahRec.definisi
        demoRumahRec.entri "kbbi-simple"), demoSt2) := by
  rfl

/-- Witness for C10: `"rumah"` then `"Rumah!"` — the second request is
served the first one's payload (with `kata = "rumah"`) as a cache hit. -/
theorem C10_cache_normalized_key_witness :
    kbbi_cek demoEnv demoSt2 "Rumah!" "ip" 1 =
      (Resp.ok { mkOkPayload "rumah" demoRumahRec.lema demoRumahRec.definisi
          demoRumahRec.entri "kbbi-simple" with cache_hit := true }, demoSt3) ∧
    (mkOkPayload "rumah" demoRumahRec.lema demoRumahRec.definisi
      demoRumahRec.entri "kbbi-simple").kata = "rumah" := by
  have h := C10_cache_normalized_key demoEnv demoSt demoSt2 demoSt3
    "rumah" "ip" "Rumah!" "ip" 0 1
    (mkOkPayload "rumah" demoRumahRec.lema demoRumahRec.definisi
      demoRumahRec.entri "kbbi-simple")
    demo_rumah_resolution rfl (by decide) (by rfl) (by rfl) (by decide)
  exact ⟨h.1, rfl⟩

-- ### C8: corpus ingestion never raises

theorem load_all_parts_go (D : Decoder) :
    ∀ (files : List (Option (List Char))) (acc : List Json),
      files.foldl (fun acc f =>
        match f with
        | none => acc
        | some raw => acc ++ (fileObjects D raw).flatMap extractEntries) acc =
      acc ++ (files.filterMap id).flatMap
        (fun raw => (fileObjects D raw).flatMap extractEntries) := by
  intro files
  induction files with
  | nil => intro acc; simp
  | cons f t ih =>
    intro acc
    cases f with
    | none =>
      rw [List.foldl_cons]
      rw [ih acc]
      simp
    | some raw =>
      rw [List.foldl_cons]
      rw [ih (acc ++ (fileObjects D raw).flatMap extractEntries)]
      simp

theorem multiGo_sound (D : Decoder) (t : List Char) (i : Nat) (o : Json)
    (ho : o ∈ multiGo D t i) : ∃ j e, D.dec t j = some (o, e) := by
  by_cases hi : i < t.length
  case neg =>
    rw [multiGo, dif_neg hi] at ho
    exact absurd ho (List.not_mem_nil o)
  by_cases hj : skipWs t i < t.length
  case neg =>
    rw [multiGo, dif_pos hi, dif_neg hj] at ho
    exact absurd ho (List.not_mem_nil o)
  rw [multiGo, dif_pos hi, dif_pos hj] at ho
  split at ho
  · rename_i oe h3
    rcases List.mem_cons.mp ho with h' | h'
    · exact ⟨skipWs t i, oe.2, by rw [h3, h']⟩
    · exact multiGo_sound D t oe.2 o h'
  · exact multiGo_sound D t (skipWs t i + 1) o ho
termination_by t.length - i
decreasing_by
  · rename_i oe hd h2 h3
    have hprog := D.dec_progress t (skipWs t i) oe.1 oe.2 (by rw [h3])
    have hij := skipWs_ge t i
    omega
  · have hij := skipWs_ge t i
    omega

/-- C8: ingestion is total for every decoder and file set — files whose
read raised are skipped and the result is exactly the flat concatenation
of what the scan-and-skip recovery yields on the readable files; and
every document the back-to-back scanner returns was really decoded at
some offset (corrupt regions are skipped, never invented). -/
theorem C8_ingestion_skips_errors (D : Decoder) (files : List (Option (List Char)))
    (t : List Char) :
    load_all_parts D files =
      (files.filterMap id).flatMap
        (fun raw => (fileObjects D raw).flatMap extractEntries) ∧
    (∀ o ∈ multi_json_objects D t, ∃ j e, D.dec t j = some (o, e)) := by
  constructor
  · have h := load_all_parts_go D files []
    rw [List.nil_append] at h
    exact h
  · intro o ho
    exact multiGo_sound D t 0 o ho

/-- The text scanned in the C8 witness. -/
def demoText : List Char := ['n', 'u', 'l', 'l']

/-- A concrete decoder recognizing exactly the text `null`. -/
def demoDec : Decoder where
  dec t i := if (t.drop i).take 4 = "null".data then some (Json.null, i + 4) else none
  loads t := if t = "null".data then some Json.null else none
  dec_progress := by
    intro t i o e h
    simp only at h
    split at h
    · cases h
      omega
    · cases h

theorem demoDec_scan : multi_json_objects demoDec demoText = [Json.null] := by
  have hskip : skipWs demoText 0 = 0 := by
    rw [skipWs, dif_pos (by decide : (0 : Nat) < demoText.length)]
    rw [if_neg (by decide)]
  have hdec : demoDec.dec demoText 0 = some (Json.null, 4) := by
    show (if (demoText.drop 0).take 4 = "null".data then some (Json.null, 0 + 4)
      else none) = some (Json.null, 4)
    rw [if_pos (by decide)]
  have htail : multiGo demoDec demoText 4 = [] := by
    rw [multiGo, dif_neg (by decide : ¬(4 : Nat) < demoText.length)]
  rw [multi_json_objects, multiGo, dif_pos (by decide : (0 : Nat) < demoText.length)]
  rw [hskip]
  rw [dif_pos (by decide : (0 : Nat) < demoText.length)]
  split
  · rename_i oe hd
    rw [hdec] at hd
    cases hd
    show Json.null :: multiGo demoDec demoText 4 = [Json.null]
    rw [htail]
  · rename_i hd
    rw [hdec] at hd
    cases hd

/-- Witness for C8: the theorem applied to the concrete decoder, a
readable file and an unreadable one, and the scanner's one recovered
document. -/
theorem C8_ingestion_skips_errors_witness :
    (load_all_parts demoDec [some demoText, none] =
      ([some demoText, none].filterMap id).flatMap
        (fun raw => (fileObjects demoDec raw).flatMap extractEntries)) ∧
    (∃ j e, demoDec.dec demoText j = some (Json.null, e)) := by
  have h := C8_ingestion_skips_errors demoDec [some demoText, none] demoText
  refine ⟨h.1, h.2 Json.null ?_⟩
  rw [demoDec_scan]
  exact List.mem_singleton.mpr rfl

-- ### C9: every index key is non-empty normalization output

theorem mem_aupd {α : Type} {p : String × α} :
    ∀ {l : List (String × α)} {k : String} {v : α},
      p ∈ aupd l k v → p ∈ l ∨ p = (k, v) := by
  intro l
  induction l with
  | nil =>
    intro k v h
    rw [aupd] at h
    rcases List.mem_singleton.mp h with h'
    exact Or.inr h'
  | cons q t ih =>
    intro k v h
    rw [aupd] at h
    split at h
    · rcases List.mem_cons.mp h with h' | h'
      · exact Or.inr h'
      · exact Or.inl (List.mem_cons_of_mem q h')
    · rcases List.mem_cons.mp h with h' | h'
      · exact Or.inl (h' ▸ List.mem_cons_self q t)
      · rcases ih h' with h'' | h''
        · exact Or.inl (List.mem_cons_of_mem q h'')
        · exact Or.inr h''

theorem mem_insertLemas {p : String × Json} {rec0 : Json} :
    ∀ {lns : List String} {bl : List (String × Json)},
      p ∈ insertLemas bl lns rec0 → p ∈ bl ∨ p.1 ∈ lns := by
  intro lns
  induction lns with
  | nil => intro bl h; exact Or.inl h
  | cons ln t ih =>
    intro bl h
    unfold insertLemas at h
    rw [List.foldl_cons] at h
    split at h
    · rcases ih h with h' | h'
      · exact Or.inl h'
      · exact Or.inr (List.mem_cons_of_mem ln h')
    · rcases ih h with h' | h'
      · rcases List.mem_append.mp h' with h'' | h''
        · exact Or.inl h''
        · rcases List.mem_singleton.mp h'' with h3
          exact Or.inr (by rw [h3]; exact List.mem_cons_self ln t)
      · exact Or.inr (List.mem_cons_of_mem ln h')

theorem wordEntriNamas_mem {rec0 : Json} {lns : List String}
    (h : wordEntriNamas rec0 = some lns) :
    ∀ ln ∈ lns, ln ≠ "" ∧ kbbiNormalize ln = ln := by
  intro ln hln
  unfold wordEntriNamas at h
  rcases hrec : recEntriList rec0 with _ | es
  · rw [hrec] at h
    cases h
  · rw [hrec] at h
    have h3 := Option.some.inj h
    rw [← h3] at hln
    rcases List.mem_filterMap.mp hln with ⟨ent, _, hent⟩
    split at hent
    · split at hent
      · rename_i s heq
        split at hent
        · rename_i hne
          cases hent
          exact ⟨hne, kbbiNormalize_idem s⟩
        · cases hent
      · cases hent
    · cases hent

/-- Keys of an index fragment are non-empty normalization fixed points. -/
def KeysNormal {α : Type} (l : List (String × α)) : Prop :=
  ∀ p ∈ l, p.1 ≠ "" ∧ kbbiNormalize p.1 = p.1

theorem keysNormal_bucketInsert {idx : List (String × Bucket)} {key nama : String}
    {defs : List String} (hidx : KeysNormal idx)
    (hkey : key ≠ "") (hfix : kbbiNormalize key = key) :
    KeysNormal (bucketInsert idx key nama defs) := by
  intro p hp
  unfold bucketInsert at hp
  split at hp
  · rcases mem_aupd hp with h' | h'
    · exact hidx p h'
    · rw [h']
      exact ⟨hkey, hfix⟩
  · rcases List.mem_append.mp hp with h' | h'
    · exact hidx p h'
    · rcases List.mem_singleton.mp h' with h3
      rw [h3]
      exact ⟨hkey, hfix⟩

theorem keysNormal_buildIndexFold :
    ∀ (entries : List Json) (acc idx : List (String × Bucket)),
      entries.foldlM buildIndexStep acc = some idx → KeysNormal acc → KeysNormal idx := by
  intro entries
  induction entries with
  | nil =>
    intro acc idx h hacc
    cases h
    exact hacc
  | cons e t ih =>
    intro acc idx h hacc
    rw [List.foldlM_cons] at h
    rcases hstep : buildIndexStep acc e with _ | acc1
    · rw [hstep] at h
      cases h
    · rw [hstep] at h
      refine ih acc1 idx h ?_
      unfold buildIndexStep at hstep
      split at hstep
      · rename_i fields
        split at hstep
        · cases hstep
          exact hacc
        · split at hstep
          · cases hstep
            exact hacc
          · rename_i hkey
            split at hstep
            · cases hstep
            · cases hstep
              exact keysNormal_bucketInsert hacc hkey
                (kbbiNormalize_idem (offlineEntryNama (Json.obj fields)))
      · cases hstep

theorem keysNormal_buildWordFold :
    ∀ (raw : List (String × Json)) (acc widx : WordIndex),
      raw.foldlM buildWordStep acc = some widx →
      KeysNormal acc.by_key → KeysNormal acc.by_lema → KeysNormal acc.orig_key →
      KeysNormal widx.by_key ∧ KeysNormal widx.by_lema ∧ KeysNormal widx.orig_key := by
  intro raw
  induction raw with
  | nil =>
    intro acc widx h h1 h2 h3
    cases h
    exact ⟨h1, h2, h3⟩
  | cons kv t ih =>
    intro acc widx h h1 h2 h3
    rw [List.foldlM_cons] at h
    rcases hstep : buildWordStep acc kv with _ | acc1
    · rw [hstep] at h
      cases h
    · rw [hstep] at h
      unfold buildWordStep at hstep
      rcases hlns : wordEntriNamas kv.2 with _ | lns
      · simp only [hlns] at hstep
        cases hstep
      · simp only [hlns] at hstep
        split at hstep
        · cases hstep
          refine ih _ widx h h1 ?_ h3
          intro p hp
          rcases mem_insertLemas hp with h' | h'
          · exact h2 p h'
          · exact wordEntriNamas_mem hlns p.1 h'
        · rename_i hne
          cases hstep
          refine ih _ widx h ?_ ?_ ?_
          · intro p hp
            rcases mem_aupd hp with h' | h'
            · exact h1 p h'
            · rw [h']
              exact ⟨hne, kbbiNormalize_idem kv.1⟩
          · intro p hp
            rcases mem_insertLemas hp with h' | h'
            · exact h2 p h'
            · exact wordEntriNamas_mem hlns p.1 h'
          · intro p hp
            rcases mem_aupd hp with h' | h'
            · exact h3 p h'
            · rw [h']
              exact ⟨hne, kbbiNormalize_idem kv.1⟩

/-- C9: every key of the offline index and of the word-database maps
`by_key`, `by_lema` and `orig_key` is non-empty and a fixed point of
`_kbbi_normalize` (it is always normalization output, never a raw
string). -/
theorem C9_index_keys_normalized :
    (∀ (entries : List Json) (idx : List (String × Bucket)),
       build_index entries = some idx →
       ∀ p ∈ idx, p.1 ≠ "" ∧ kbbiNormalize p.1 = p.1) ∧
    (∀ (raw : List (String × Json)) (widx : WordIndex),
       build_word_index raw = some widx →
       (∀ p ∈ widx.by_key, p.1 ≠ "" ∧ kbbiNormalize p.1 = p.1) ∧
       (∀ p ∈ widx.by_lema, p.1 ≠ "" ∧ kbbiNormalize p.1 = p.1) ∧
       (∀ p ∈ widx.orig_key, p.1 ≠ "" ∧ kbbiNormalize p.1 = p.1)) := by
  constructor
  · intro entries idx h p hp
    unfold build_index at h
    rcases hfold : entries.foldlM buildIndexStep [] with _ | idx0
    · rw [hfold] at h
      cases h
    · rw [hfold] at h
      have h' := Option.some.inj h
      rw [← h'] at hp
      rcases List.mem_map.mp hp with ⟨q, hq, hqp⟩
      have := keysNormal_buildIndexFold entries [] idx0 hfold (by intro r hr; cases hr)
      have hqn := this q hq
      rw [← hqp]
      exact hqn
  · intro raw widx h
    exact keysNormal_buildWordFold raw ⟨[], [], []⟩ widx h
      (by intro r hr; cases hr) (by intro r hr; cases hr) (by intro r hr; cases hr)

/-- Entries and raw dict for the C9 witness. -/
def demoEntries : List Json :=
  [Json.obj [("nama", Json.str "Pijar!"), ("makna", Json.arr [])]]

def demoWordRaw : List (String × Json) := [("Rumah", Json.obj [])]

/-- Witness for C9: the concrete offline index holds the key `"pijar"`
(normalized from `"Pijar!"`), and the concrete `orig_key` map holds
`"rumah"` (normalized from `"Rumah"`), both non-empty fixed points. -/
theorem C9_index_keys_normalized_witness :
    ("pijar" ≠ "" ∧ kbbiNormalize "pijar" = "pijar") ∧
    ("rumah" ≠ "" ∧ kbbiNormalize "rumah" = "rumah") := by
  constructor
  · refine (C9_index_keys_normalized.1 demoEntries
      [("pijar", Bucket.mk ["Pijar!"] [])] (by rfl)
      ("pijar", Bucket.mk ["Pijar!"] []) ?_)
    exact List.mem_singleton.mpr rfl
  · refine ((C9_index_keys_normalized.2 demoWordRaw
      ⟨[("rumah", Json.obj [])], [], [("rumah", "Rumah")]⟩ (by rfl)).2.2
      ("rumah", "Rumah") ?_)
    exact List.mem_singleton.mpr rfl

-- ### C4: first-occurrence-wins in the word database

/-- Strict `Option` alternative (used to state lookup decompositions). -/
def oor {α : Type} (a b : Option α) : Option α :=
  match a with
  | some v => some v
  | none => b

theorem oor_none_right {α : Type} (a : Option α) : oor a none = a := by
  cases a <;> rfl

theorem oor_assoc {α : Type} (a b c : Option α) :
    oor (oor a b) c = oor a (oor b c) := by
  cases a <;> rfl

theorem oor_some_absorb {α : Type} (a : Option α) (v : α) (b : Option α) :
    oor (oor a (some v)) b = oor a (some v) := by
  cases a <;> rfl

theorem alook_cons_self {α : Type} {q : String × α} {t : List (String × α)}
    {k : String} (h : q.1 = k) : alook (q :: t) k = some q.2 := by
  simp [alook, h]

theorem alook_cons_ne {α : Type} {q : String × α} {t : List (String × α)}
    {k : String} (h : ¬q.1 = k) : alook (q :: t) k = alook t k := by
  simp [alook, h]

theorem alook_append {α : Type} (l1 l2 : List (String × α)) (k : String) :
    alook (l1 ++ l2) k = oor (alook l1 k) (alook l2 k) := by
  induction l1 with
  | nil => simp [alook, oor]
  | cons q t ih =>
    by_cases h : q.1 = k
    · rw [List.cons_append, alook_cons_self h, alook_cons_self h]
      rfl
    · rw [List.cons_append, alook_cons_ne h, alook_cons_ne h, ih]

theorem alook_singleton {α : Type} (k0 k : String) (v : α) :
    alook [(k0, v)] k = if k0 = k then some v else none := by
  by_cases h : k0 = k
  · rw [if_pos h]
    exact alook_cons_self h
  · rw [if_neg h]
    exact alook_cons_ne h

theorem alook_eq_none_iff {α : Type} {l : List (String × α)} {k : String} :
    alook l k = none ↔ k ∉ l.map Prod.fst := by
  induction l with
  | nil => simp [alook]
  | cons q t ih =>
    by_cases h : q.1 = k
    · rw [alook_cons_self h]
      simp [h]
    · rw [alook_cons_ne h, ih]
      simp only [List.map_cons, List.mem_cons, not_or]
      constructor
      · intro h1
        exact ⟨fun hc => h hc.symm, h1⟩
      · intro h1
        exact h1.2

theorem alook_mem {α : Type} {l : List (String × α)} {k : String} {v : α}
    (h : alook l k = some v) : (k, v) ∈ l := by
  induction l with
  | nil => simp [alook] at h
  | cons q t ih =>
    by_cases hq : q.1 = k
    · rw [alook_cons_self hq] at h
      have hv := Option.some.inj h
      have : (k, v) = q := by
        rw [← hq, ← hv]
      rw [this]
      exact List.mem_cons_self q t
    · rw [alook_cons_ne hq] at h
      exact List.mem_cons_of_mem q (ih h)

theorem getLast?_cons_eq {α : Type} (a : α) (l : List α) :
    (a :: l).getLast? = oor l.getLast? (some a) := by
  induction l generalizing a with
  | nil => rfl
  | cons b t ih =>
    rw [List.getLast?_cons_cons]
    rw [ih b]
    cases hgl : t.getLast? <;> rfl

-- `sortShards` is a permutation sorted by filename.

theorem insertShard_perm {α : Type} (x : String × α) (l : List (String × α)) :
    List.Perm (insertShard x l) (x :: l) := by
  induction l with
  | nil => exact List.Perm.refl _
  | cons y ys ih =>
    rw [insertShard]
    split
    · exact List.Perm.refl _
    · exact (List.Perm.cons y ih).trans (List.Perm.swap x y ys)

theorem sortShards_perm {α : Type} (l : List (String × α)) :
    List.Perm (sortShards l) l := by
  induction l with
  | nil => exact List.Perm.refl _
  | cons a t ih =>
    have h1 : sortShards (a :: t) = insertShard a (sortShards t) := rfl
    rw [h1]
    exact (insertShard_perm a (sortShards t)).trans (List.Perm.cons a ih)

theorem mem_insertShard {α : Type} {x a : String × α} {l : List (String × α)}
    (h : a ∈ insertShard x l) : a = x ∨ a ∈ l :=
  List.mem_cons.mp ((insertShard_perm x l).mem_iff.mp h)

theorem insertShard_pairwise {α : Type} {x : String × α} {l : List (String × α)}
    (h : List.Pairwise (fun a b => a.1 ≤ b.1) l) :
    List.Pairwise (fun a b => a.1 ≤ b.1) (insertShard x l) := by
  induction l with
  | nil => exact List.pairwise_singleton _ x
  | cons y ys ih =>
    rw [insertShard]
    have hy := List.pairwise_cons.mp h
    split
    · rename_i hxy
      rw [List.pairwise_cons]
      refine ⟨?_, h⟩
      intro b hb
      rcases List.mem_cons.mp hb with h' | h'
      · rw [h']
        exact hxy
      · exact le_trans hxy (hy.1 b h')
    · rename_i hxy
      rw [List.pairwise_cons]
      refine ⟨?_, ih hy.2⟩
      intro b hb
      rcases mem_insertShard hb with h' | h'
      · rw [h']
        exact le_of_not_le hxy
      · exact hy.1 b h'

theorem sortShards_pairwise {α : Type} (l : List (String × α)) :
    List.Pairwise (fun a b => a.1 ≤ b.1) (sortShards l) := by
  induction l with
  | nil => exact List.Pairwise.nil
  | cons a t ih => exact insertShard_pairwise ih

theorem mergeShardPairs_alook (k : String) :
    ∀ (kvs comb : List (String × Json)),
      alook (mergeShardPairs comb kvs) k = oor (alook comb k) (alook kvs k) := by
  intro kvs
  induction kvs with
  | nil =>
    intro comb
    rw [show alook [] k = none from rfl, oor_none_right]
    rfl
  | cons kv t ih =>
    intro comb
    unfold mergeShardPairs at ih ⊢
    rw [List.foldl_cons]
    split
    · rename_i hsome
      rw [ih comb]
      by_cases hk : kv.1 = k
      · rcases hcomb : alook comb k with _ | w
        · rw [hk, hcomb] at hsome
          simp at hsome
        · rfl
      · rw [alook_cons_ne hk]
    · rename_i hnone
      rw [ih (comb ++ [kv])]
      rw [alook_append, alook_singleton]
      by_cases hk : kv.1 = k
      · rw [if_pos hk, alook_cons_self hk]
        rcases hcomb : alook comb k with _ | w
        · rfl
        · rfl
      · rw [if_neg hk, alook_cons_ne hk, oor_none_right]

theorem load_word_db_raw_go (k : String) :
    ∀ (ds : List (String × Option Json)) (comb : List (String × Json)),
      alook (ds.foldl (fun c sh => mergeShardPairs c (shardPairs sh)) comb) k =
        oor (alook comb k) (alook (ds.flatMap shardPairs) k) := by
  intro ds
  induction ds with
  | nil =>
    intro comb
    rw [List.foldl_nil, List.flatMap_nil, show alook [] k = none from rfl, oor_none_right]
  | cons d t ih =>
    intro comb
    rw [List.foldl_cons, ih, mergeShardPairs_alook, List.flatMap_cons, alook_append,
      oor_assoc]

theorem load_word_db_raw_alook (shards : List (String × Option Json)) (k : String) :
    alook (load_word_db_raw shards) k =
      alook ((sortShards shards).flatMap shardPairs) k := by
  unfold load_word_db_raw
  rw [load_word_db_raw_go k (sortShards shards) []]
  rfl

theorem flatMap_alook_none {k : String} :
    ∀ {L : List (String × Option Json)},
      (∀ x ∈ L, alook (shardPairs x) k = none) →
      alook (L.flatMap shardPairs) k = none := by
  intro L
  induction L with
  | nil => intro _; rfl
  | cons x t ih =>
    intro h
    rw [List.flatMap_cons, alook_append, h x (List.mem_cons_self x t),
      ih (fun y hy => h y (List.mem_cons_of_mem x hy))]
    rfl

-- The merged dict has pairwise-distinct keys.

theorem mergeShardPairs_keys_nodup :
    ∀ (kvs comb : List (String × Json)),
      (comb.map Prod.fst).Nodup → ((mergeShardPairs comb kvs).map Prod.fst).Nodup := by
  intro kvs
  induction kvs with
  | nil => intro comb h; exact h
  | cons kv t ih =>
    intro comb h
    unfold mergeShardPairs at ih ⊢
    rw [List.foldl_cons]
    split
    · exact ih comb h
    · rename_i hnone
      refine ih (comb ++ [kv]) ?_
      rw [List.map_append, List.map_singleton, List.nodup_append]
      refine ⟨h, List.nodup_singleton _, ?_⟩
      intro a ha hcon
      rcases List.mem_singleton.mp hcon with h3
      have hnone' : alook comb kv.1 = none := by
        rcases hx : alook comb kv.1 with _ | w
        · rfl
        · rw [hx] at hnone
          simp at hnone
      rw [h3] at ha
      exact (alook_eq_none_iff.mp hnone') ha

/-- The last record written to `by_key[nk]` while folding over `raw`. -/
def lastWrite (raw : List (String × Json)) (nk : String) : Option Json :=
  (raw.filterMap (fun p => if kbbiNormalize p.1 = nk then some p.2 else none)).getLast?

theorem by_key_fold_char :
    ∀ (raw : List (String × Json)) (acc widx : WordIndex),
      raw.foldlM buildWordStep acc = some widx → ∀ nk, nk ≠ "" →
      alook widx.by_key nk = oor (lastWrite raw nk) (alook acc.by_key nk) := by
  intro raw
  induction raw with
  | nil =>
    intro acc widx h nk hnk
    cases h
    rfl
  | cons kv t ih =>
    intro acc widx h nk hnk
    rw [List.foldlM_cons] at h
    rcases hstep : buildWordStep acc kv with _ | acc1
    · rw [hstep] at h
      cases h
    · rw [hstep] at h
      have hrec := ih acc1 widx h nk hnk
      unfold buildWordStep at hstep
      rcases hlns : wordEntriNamas kv.2 with _ | lns
      · simp only [hlns] at hstep
        cases hstep
      · simp only [hlns] at hstep
        have hLW : lastWrite (kv :: t) nk =
            if kbbiNormalize kv.1 = nk then oor (lastWrite t nk) (some kv.2)
            else lastWrite t nk := by
          unfold lastWrite
          rw [List.filterMap_cons]
          by_cases hk : kbbiNormalize kv.1 = nk
          · rw [if_pos hk]
            simp only [if_pos hk]
            exact getLast?_cons_eq kv.2 _
          · rw [if_neg hk]
            simp only [if_neg hk]
        split at hstep
        · rename_i hempty
          cases hstep
          rw [hLW, if_neg (by rw [hempty]; exact fun hcon => hnk hcon.symm)]
          exact hrec
        · rename_i hne
          cases hstep
          by_cases hk : kbbiNormalize kv.1 = nk
          · rw [hLW, if_pos hk]
            rw [show alook (aupd acc.by_key (kbbiNormalize kv.1) kv.2) nk = some kv.2 by
              rw [hk]; exact alook_aupd_self _ _ _] at hrec
            rw [hrec, oor_some_absorb]
          · rw [hLW, if_neg hk]
            rw [show alook (aupd acc.by_key (kbbiNormalize kv.1) kv.2) nk =
              alook acc.by_key nk from
              alook_aupd_other _ _ _ _ (fun hcon => hk hcon.symm)] at hrec
            exact hrec

theorem insertLemas_alook :
    ∀ (lns : List String) (bl : List (String × Json)) (r : Json) (ln : String),
      alook (insertLemas bl lns r) ln =
        oor (alook bl ln) (if ln ∈ lns then some r else none) := by
  intro lns
  induction lns with
  | nil =>
    intro bl r ln
    rw [if_neg (List.not_mem_nil ln)]
    exact (oor_none_right _).symm
  | cons l0 rest ih =>
    intro bl r ln
    unfold insertLemas at ih ⊢
    rw [List.foldl_cons]
    have hmemiff : (ln ∈ l0 :: rest) ↔ (ln = l0 ∨ ln ∈ rest) := List.mem_cons
    split
    · rename_i hsome
      rw [ih bl r ln]
      by_cases hln : ln = l0
      · rcases hbl : alook bl ln with _ | w
        · rw [← hln] at hsome
          rw [hbl] at hsome
          simp at hsome
        · rfl
      · have : (ln ∈ l0 :: rest) ↔ (ln ∈ rest) := by
          rw [hmemiff]
          simp [hln]
        rw [if_congr this rfl rfl]
    · rename_i hnone
      rw [ih (bl ++ [(l0, r)]) r ln]
      rw [alook_append, alook_singleton]
      by_cases hln : ln = l0
      · have hbl : alook bl ln = none := by
          rcases hx : alook bl ln with _ | w
          · rfl
          · rw [← hln] at hnone
            rw [hx] at hnone
            simp at hnone
        rw [hbl, if_pos hln.symm]
        rw [if_pos (hmemiff.mpr (Or.inl hln))]
        rfl
      · rw [if_neg (fun hcon => hln hcon.symm), oor_none_right]
        have : (ln ∈ l0 :: rest) ↔ (ln ∈ rest) := by
          rw [hmemiff]
          simp [hln]
        rw [if_congr this rfl rfl]

theorem by_lema_fold_char :
    ∀ (raw : List (String × Json)) (acc widx : WordIndex),
      raw.foldlM buildWordStep acc = some widx → ∀ ln,
      alook widx.by_lema ln = oor (alook acc.by_lema ln)
        ((raw.find? (fun p => decide (ln ∈ recLemas p.2))).map Prod.snd) := by
  intro raw
  induction raw with
  | nil =>
    intro acc widx h ln
    cases h
    exact (oor_none_right _).symm
  | cons kv t ih =>
    intro acc widx h ln
    rw [List.foldlM_cons] at h
    rcases hstep : buildWordStep acc kv with _ | acc1
    · rw [hstep] at h
      cases h
    · rw [hstep] at h
      have hrec := ih acc1 widx h ln
      unfold buildWordStep at hstep
      rcases hlns : wordEntriNamas kv.2 with _ | lns
      · simp only [hlns] at hstep
        cases hstep
      · simp only [hlns] at hstep
        have hrl : recLemas kv.2 = lns := by
          unfold recLemas
          rw [hlns]
          rfl
        have hbl : acc1.by_lema = insertLemas acc.by_lema lns kv.2 := by
          split at hstep
          · cases hstep
            rfl
          · cases hstep
            rfl
        rw [hbl, insertLemas_alook] at hrec
        rw [oor_assoc] at hrec
        rw [hrec]
        congr 1
        rw [List.find?_cons]
        by_cases hmem : ln ∈ lns
        · rw [show (decide (ln ∈ recLemas kv.2)) = true by rw [hrl]; simpa using hmem]
          rw [if_pos hmem]
          rfl
        · rw [show (decide (ln ∈ recLemas kv.2)) = false by rw [hrl]; simpa using hmem]
          rw [if_neg hmem]
          rfl

theorem alook_of_mem_nodup {l : List (String × Json)} {k : String} {v : Json}
    (hnodup : (l.map Prod.fst).Nodup) (hmem : (k, v) ∈ l) : alook l k = some v := by
  induction l with
  | nil => cases hmem
  | cons q t ih =>
    rw [List.map_cons, List.nodup_cons] at hnodup
    rcases List.mem_cons.mp hmem with h' | h'
    · rw [alook_cons_self (show q.1 = k by rw [← h'])]
      rw [← h']
    · have hk : k ∈ t.map Prod.fst := List.mem_map_of_mem Prod.fst h'
      have hq : q.1 ≠ k := fun hcon => hnodup.1 (by rw [hcon]; exact hk)
      rw [alook_cons_ne hq]
      exact ih hnodup.2 h'

theorem load_fold_keys_nodup :
    ∀ (ds : List (String × Option Json)) (comb : List (String × Json)),
      (comb.map Prod.fst).Nodup →
      (((ds.foldl (fun c sh => mergeShardPairs c (shardPairs sh)) comb)).map Prod.fst).Nodup := by
  intro ds
  induction ds with
  | nil => intro comb h; exact h
  | cons d t ih =>
    intro comb h
    rw [List.foldl_cons]
    exact ih _ (mergeShardPairs_keys_nodup (shardPairs d) comb h)

theorem load_word_db_raw_keys_nodup (shards : List (String × Option Json)) :
    ((load_word_db_raw shards).map Prod.fst).Nodup := by
  unfold load_word_db_raw
  exact load_fold_keys_nodup (sortShards shards) [] List.nodup_nil

/-- C4: the word database is first-occurrence-wins everywhere.  With
shard files processed in sorted filename order, a top-level key keeps
the record from the lexicographically-first filename containing it —
both in the merged raw dict and (when no other raw key shares its
normalization) through `by_key` resolution — and `by_lema` always
resolves to the first-written record yielding that normalized lemma. -/
theorem C4_word_db_first_occurrence_wins
    (shards : List (String × Option Json))
    (f1 : String) (kvs1 : List (String × Json)) (key : String) (v1 : Json)
    (hnodup : (shards.map Prod.fst).Nodup)
    (hmem : (f1, some (Json.obj kvs1)) ∈ shards)
    (hfound : alook kvs1 key = some v1)
    (hmin : ∀ g oj, (g, oj) ∈ shards →
      alook (shardPairs (g, oj)) key ≠ none → f1 ≤ g)
    (widx : WordIndex)
    (hbuild : build_word_index (load_word_db_raw shards) = some widx)
    (hkeynorm : kbbiNormalize key ≠ "")
    (huniq : ∀ p ∈ load_word_db_raw shards,
      kbbiNormalize p.1 = kbbiNormalize key → p.1 = key) :
    alook (load_word_db_raw shards) key = some v1 ∧
    alook widx.by_key (kbbiNormalize key) = some v1 ∧
    (∀ ln, alook widx.by_lema ln =
      ((load_word_db_raw shards).find?
        (fun p => decide (ln ∈ recLemas p.2))).map Prod.snd) := by
  have hperm := sortShards_perm shards
  have hmem' : (f1, some (Json.obj kvs1)) ∈ sortShards shards := hperm.mem_iff.mpr hmem
  obtain ⟨L1, L2, hdecomp⟩ := List.append_of_mem hmem'
  have hpair := sortShards_pairwise shards
  rw [hdecomp] at hpair
  have hnodup' : ((sortShards shards).map Prod.fst).Nodup :=
    ((hperm.map Prod.fst).nodup_iff).mpr hnodup
  rw [hdecomp] at hnodup'
  have hL1 : ∀ x ∈ L1, alook (shardPairs x) key = none := by
    intro x hx
    by_contra hcon
    have hxmem : x ∈ shards := hperm.mem_iff.mp
      (by rw [hdecomp]; exact List.mem_append_left _ hx)
    have hge : f1 ≤ x.1 := hmin x.1 x.2 hxmem hcon
    have hle : x.1 ≤ f1 :=
      (List.pairwise_append.mp hpair).2.2 x hx (f1, some (Json.obj kvs1))
        (List.mem_cons_self _ _)
    have hx1 : x.1 = f1 := le_antisymm hle hge
    rw [List.map_append, List.map_cons, List.nodup_append] at hnodup'
    have hmm := List.mem_map_of_mem Prod.fst hx
    exact hnodup'.2.2 (hx1 ▸ hmm) (List.mem_cons_self _ _)
  have hpart1 : alook (load_word_db_raw shards) key = some v1 := by
    rw [load_word_db_raw_alook, hdecomp, List.flatMap_append, alook_append,
      flatMap_alook_none hL1]
    rw [List.flatMap_cons, alook_append]
    rw [show shardPairs (f1, some (Json.obj kvs1)) = kvs1 from rfl, hfound]
    rfl
  refine ⟨hpart1, ?_, ?_⟩
  · have hchar := by_key_fold_char (load_word_db_raw shards) ⟨[], [], []⟩ widx hbuild
      (kbbiNormalize key) hkeynorm
    rw [show alook (⟨[], [], []⟩ : WordIndex).by_key (kbbiNormalize key) = none from rfl,
      oor_none_right] at hchar
    rw [hchar]
    have hmemc : (key, v1) ∈ load_word_db_raw shards := alook_mem hpart1
    have hnodc : ((load_word_db_raw shards).map Prod.fst).Nodup :=
      load_word_db_raw_keys_nodup shards
    obtain ⟨A, B, hAB⟩ := List.append_of_mem hmemc
    rw [hAB] at hnodc
    rw [List.map_append, List.map_cons, List.nodup_append] at hnodc
    have hA : ∀ p ∈ A, (if kbbiNormalize p.1 = kbbiNormalize key
        then some p.2 else none) = none := by
      intro p hp
      rw [if_neg]
      intro hcon
      have hpk : p.1 = key := huniq p
        (by rw [hAB]; exact List.mem_append_left _ hp) hcon
      have hmm := List.mem_map_of_mem Prod.fst hp
      exact hnodc.2.2 (hpk ▸ hmm) (List.mem_cons_self _ _)
    have hB : ∀ p ∈ B, (if kbbiNormalize p.1 = kbbiNormalize key
        then some p.2 else none) = none := by
      intro p hp
      rw [if_neg]
      intro hcon
      have hpk : p.1 = key := huniq p
        (by rw [hAB]
            exact List.mem_append_right _ (List.mem_cons_of_mem _ hp)) hcon
      have hknotB := (List.nodup_cons.mp hnodc.2.1).1
      have hmm := List.mem_map_of_mem Prod.fst hp
      exact hknotB (hpk ▸ hmm)
    unfold lastWrite
    rw [hAB, List.filterMap_append, List.filterMap_cons]
    rw [List.filterMap_eq_nil.mpr hA, List.filterMap_eq_nil.mpr hB]
    rw [if_pos rfl]
    rfl
  · intro ln
    have hchar := by_lema_fold_char (load_word_db_raw shards) ⟨[], [], []⟩ widx hbuild ln
    rw [show alook (⟨[], [], []⟩ : WordIndex).by_lema ln = none from rfl] at hchar
    exact hchar

/-- Shards for the C4 witness: the same top-level key in two files, the
lexicographically-first filename carrying record `a`. -/
def demoRecA : Json := Json.obj [("v", Json.str "a")]
def demoRecB : Json := Json.obj [("v", Json.str "b")]

def demoShards : List (String × Option Json) :=
  [("b.json", some (Json.obj [("Rumah", demoRecB)])),
   ("a.json", some (Json.obj [("Rumah", demoRecA)]))]

def demoWidx : WordIndex :=
  ⟨[("rumah", demoRecA)], [], [("rumah", "Rumah")]⟩

theorem demo_ale_b : ("a.json" : String) ≤ "b.json" := by
  rw [String.le_iff_toList_le]
  decide

theorem demo_not_ble_a : ¬ (("b.json" : String) ≤ "a.json") := by
  rw [String.le_iff_toList_le]
  decide

theorem demo_sortShards : sortShards demoShards =
    [("a.json", some (Json.obj [("Rumah", demoRecA)])),
     ("b.json", some (Json.obj [("Rumah", demoRecB)]))] := by
  show insertShard ("b.json", some (Json.obj [("Rumah", demoRecB)]))
    [("a.json", some (Json.obj [("Rumah", demoRecA)]))] = _
  rw [insertShard, if_neg demo_not_ble_a]
  rfl

theorem demo_raw : load_word_db_raw demoShards = [("Rumah", demoRecA)] := by
  show (sortShards demoShards).foldl
    (fun combined shard => mergeShardPairs combined (shardPairs shard)) [] = _
  rw [demo_sortShards]
  rfl

theorem demo_build : build_word_index (load_word_db_raw demoShards) = some demoWidx := by
  rw [demo_raw]
  rfl

/-- Witness for C4: with `"Rumah"` present in both shards, the merged
dict and `by_key` keep the record from `a.json`. -/
theorem C4_word_db_first_occurrence_wins_witness :
    alook (load_word_db_raw demoShards) "Rumah" = some demoRecA ∧
    alook demoWidx.by_key (kbbiNormalize "Rumah") = some demoRecA := by
  have h := C4_word_db_first_occurrence_wins demoShards "a.json"
    [("Rumah", demoRecA)] "Rumah" demoRecA
    (by decide)
    (List.mem_cons_of_mem _ (List.mem_singleton.mpr rfl))
    (by rfl)
    (by
      intro g oj hg hne
      rcases List.mem_cons.mp hg with h' | h'
      · rw [show g = "b.json" from congrArg Prod.fst h']
        exact demo_ale_b
      · rcases List.mem_singleton.mp h' with h3
        rw [show g = "a.json" from congrArg Prod.fst h3])
    demoWidx
    demo_build
    (by decide)
    (by
      intro p hp hnorm
      rw [demo_raw] at hp
      rcases List.mem_singleton.mp hp with h3
      rw [h3])
  exact ⟨h.1, h.2.1⟩
